import Mathlib

/-! Hardware trigger signal generator (`SignalGeneratorLib/PatternGenerator`)

A shallow embedding of `PatternGenerator.hpp` / `PatternGenerator.cpp` and the properties of
its scheduling helper, its GPIO chip wrapper, its pattern list and its real-time loop.

Modelling conventions

* A C++ `double` is an IEEE 754 binary64 value (`Double`): a finite value is given by its exact
  rational value, and every operation rounds its exact result to the nearest binary64 value,
  ties to even (`Double.ofRat`); infinities and NaN are values of the type.
* A value of type `int`, `long` or of the tick count of `std::chrono::system_clock` (one tick is
  one nanosecond) is an integer of its range; an arithmetic result outside the range wraps
  around (`wrapInt32`, `wrapInt64`), as it does on the target although C++ leaves it undefined.
  The conversion `int(x)` / `long(x)` of a `double` truncates toward zero and is undefined when
  the result does not fit; the model reports that as the fault `Error.undefinedConversion`.
* Every member function is a pure function from the object state (and the answers of the
  operating system, which are explicit arguments) to an `Outcome`: the new object state, the
  list of system calls that were issued, and either a return value or the thrown exception.
  State changes made before a `throw` are kept, as in C++.  Text written to `std::cout` is not
  part of the model.
* An out-of-range `patterns[index]` is undefined behaviour in C++; the model reports it as the
  distinguished fault `Error.outOfBounds`.
* The loop `loopAllPatternsRealtime` is a transition system (`loopStep`).  A schedule lists, for
  each step of the loop thread, what the rest of the world does around it: whether another thread
  calls `stopAllPatterns()` right before the step, whether a hardware write is rejected, and how
  long the step and the sleep take.
-/

namespace PylonMultiCam

/-! ## Common vocabulary -/

/-- The exceptions thrown by the library, and the faults marking an out-of-range vector read
and a conversion of a `double` to an integer type that cannot hold it. -/
inductive Error where
  | invalidArgument (what : String)
  | runtimeError (what : String)
  | outOfBounds
  | undefinedConversion
  deriving DecidableEq, Repr

/-- Either a returned value or a thrown exception. -/
inductive Result (α : Type) where
  | ok (value : α)
  | error (e : Error)
  deriving DecidableEq, Repr

/-- The enumeration `enum Policy { RoundRobin = SCHED_RR }`. -/
inductive Policy where
  | RoundRobin
  deriving DecidableEq, Repr

/-- The system calls with an effect outside the process that the library issues.  A chip device
`/dev/gpiochip<index>` is named by its index. -/
inductive OsCall where
  | mlockall
  | schedSetscheduler (policy : Policy) (priority : Int)
  | closeFd (fd : Int)
  | openDevice (index : Nat)
  | getChipInfo (fd : Int)
  | getLineHandle (fd : Int) (offsets : List Int)
  | setLineValues (fd : Int) (values : List Nat)
  | sleepUntil (deadline : Int)
  deriving DecidableEq, Repr

/-- What a member function leaves behind: the object, the system calls it made (oldest first)
and its return value or exception. -/
structure Outcome (σ α : Type) where
  state : σ
  trace : List OsCall
  result : Result α
  deriving DecidableEq, Repr

/-! ## Machine integers -/

/-- The value a 32-bit signed integer (`int`) holds after an arithmetic result `x`. -/
def wrapInt32 (x : Int) : Int := (x + 2147483648) % 4294967296 - 2147483648

/-- The value a 64-bit signed integer (`long`, the tick count of the clock) holds after an
arithmetic result `x`. -/
def wrapInt64 (x : Int) : Int :=
  (x + 9223372036854775808) % 18446744073709551616 - 9223372036854775808

/-- The number of clock ticks of `std::chrono::microseconds(k)` once it is converted to the
nanosecond tick of `system_clock::time_point`. -/
def microseconds (k : Int) : Int := wrapInt64 (1000 * k)

/-! ## The `double` type: IEEE 754 binary64, round to nearest, ties to even -/

/-- A value of the C++ type `double`.  A finite value is given by its exact rational value; the
model keeps one zero, since no operation of the program can tell `-0.0` from `0.0`. -/
inductive Double where
  | finite (q : ℚ)
  | posInf
  | negInf
  | nan
  deriving DecidableEq, Repr

/-- The position of the leading bit of `n`: the largest `k` with `2 ^ k ≤ n`, for `n ≥ 1`; the
first argument bounds the number of halvings. -/
def log2Floor : Nat → Nat → Nat
  | 0, _ => 0
  | fuel + 1, n => if n < 2 then 0 else log2Floor fuel (n / 2) + 1

/-- The binade of a positive rational `a`: the integer `e` with `2 ^ e ≤ a < 2 ^ (e + 1)`. -/
def binade (a : ℚ) : Int :=
  let n := a.num.natAbs
  let d := a.den
  let e0 : Int := (log2Floor n n : Int) - (log2Floor d d : Int)
  if d * 2 ^ log2Floor n n ≤ n * 2 ^ log2Floor d d then e0 else e0 - 1

/-- Rounding of a non-negative rational to the nearest integer, a tie going to the even one. -/
def roundHalfEven (x : ℚ) : Int :=
  if x - (⌊x⌋ : ℚ) < 1 / 2 then ⌊x⌋
  else if 1 / 2 < x - (⌊x⌋ : ℚ) then ⌊x⌋ + 1
  else if ⌊x⌋ % 2 = 0 then ⌊x⌋ else ⌊x⌋ + 1

/-- The spacing of the binary64 values around a positive rational `a`: `2 ^ (e - 52)` for the
binade `e` of `a`, and `2 ^ (-1074)` below the smallest normal value. -/
def quantum (a : ℚ) : ℚ := (2 : ℚ) ^ (max (binade a) (-1022) - 52)

/-- The binary64 value nearest to a positive rational `a`, a tie going to the even
significand; the result may be `2 ^ 1024`, which stands for an overflow. -/
def roundMagnitude (a : ℚ) : ℚ := (roundHalfEven (a / quantum a) : ℚ) * quantum a

/-- The `double` nearest to the rational `q`: the rounding every arithmetic operation applies
to its exact result, and the value of a decimal literal. -/
def Double.ofRat (q : ℚ) : Double :=
  if q = 0 then .finite 0
  else if (2 : ℚ) ^ (1024 : Int) ≤ roundMagnitude |q| then (if q < 0 then .negInf else .posInf)
  else .finite (if q < 0 then -roundMagnitude |q| else roundMagnitude |q|)

namespace Double

/-- The conversion of an integer (`int`, `long`, `size_t`) to `double`. -/
def ofInt (k : Int) : Double := ofRat k

/-- The operator `*` on `double`. -/
def mul : Double → Double → Double
  | .finite a, .finite b => ofRat (a * b)
  | .finite a, .posInf => if a = 0 then .nan else if 0 < a then .posInf else .negInf
  | .finite a, .negInf => if a = 0 then .nan else if 0 < a then .negInf else .posInf
  | .posInf, .finite b => if b = 0 then .nan else if 0 < b then .posInf else .negInf
  | .negInf, .finite b => if b = 0 then .nan else if 0 < b then .negInf else .posInf
  | .posInf, .posInf => .posInf
  | .posInf, .negInf => .negInf
  | .negInf, .posInf => .negInf
  | .negInf, .negInf => .posInf
  | .nan, _ => .nan
  | _, .nan => .nan

/-- The operator `+` on `double`. -/
def add : Double → Double → Double
  | .finite a, .finite b => ofRat (a + b)
  | .finite _, .posInf => .posInf
  | .finite _, .negInf => .negInf
  | .posInf, .finite _ => .posInf
  | .negInf, .finite _ => .negInf
  | .posInf, .posInf => .posInf
  | .negInf, .negInf => .negInf
  | .posInf, .negInf => .nan
  | .negInf, .posInf => .nan
  | .nan, _ => .nan
  | _, .nan => .nan

/-- The unary `-` on `double`. -/
def neg : Double → Double
  | .finite a => .finite (-a)
  | .posInf => .negInf
  | .negInf => .posInf
  | .nan => .nan

/-- The operator `-` on `double`. -/
def sub (x y : Double) : Double := add x (neg y)

/-- The operator `/` on `double`; a zero divisor counts as `+0.0`. -/
def div : Double → Double → Double
  | .finite a, .finite b =>
    if b = 0 then (if a = 0 then .nan else if 0 < a then .posInf else .negInf)
    else ofRat (a / b)
  | .finite _, .posInf => .finite 0
  | .finite _, .negInf => .finite 0
  | .posInf, .finite b => if 0 ≤ b then .posInf else .negInf
  | .negInf, .finite b => if 0 ≤ b then .negInf else .posInf
  | .posInf, .posInf => .nan
  | .posInf, .negInf => .nan
  | .negInf, .posInf => .nan
  | .negInf, .negInf => .nan
  | .nan, _ => .nan
  | _, .nan => .nan

/-- The operator `<` on `double`: false whenever an operand is NaN. -/
def lt : Double → Double → Bool
  | .finite a, .finite b => decide (a < b)
  | .finite _, .posInf => true
  | .negInf, .finite _ => true
  | .negInf, .posInf => true
  | _, _ => false

/-- The operator `>` on `double`. -/
def gt (x y : Double) : Bool := lt y x

/-- The operator `<=` on `double`: false whenever an operand is NaN. -/
def le : Double → Double → Bool
  | .finite a, .finite b => decide (a ≤ b)
  | .finite _, .posInf => true
  | .negInf, .finite _ => true
  | .negInf, .posInf => true
  | .posInf, .posInf => true
  | .negInf, .negInf => true
  | _, _ => false

/-- The conversion of a `double` to a signed integer type of `bits` bits: truncation toward
zero, and `none` (undefined behaviour in C++) when the truncated value does not fit or the
operand is not finite. -/
def toSigned (bits : Nat) : Double → Option Int
  | .finite q =>
    if -(2 : Int) ^ (bits - 1) ≤ Int.tdiv q.num q.den ∧ Int.tdiv q.num q.den < 2 ^ (bits - 1)
    then some (Int.tdiv q.num q.den) else none
  | _ => none

/-- The conversion `int(x)`. -/
def toInt (x : Double) : Option Int := toSigned 32 x

/-- The conversion `long(x)`. -/
def toLong (x : Double) : Option Int := toSigned 64 x

end Double

/-! ## `namespace Scheduling` -/

/-- The answers of the operating system to the calls made by `Scheduling::setPriority`. -/
structure SchedulerOs where
  /-- Is `none` when `mlockall` returns 0, otherwise `strerror(errno)`. -/
  mlockallError : Option String
  /-- The answer of `sched_get_priority_min`. -/
  priorityMin : Policy → Int
  /-- The answer of `sched_get_priority_max`. -/
  priorityMax : Policy → Int
  /-- Whether `sched_setscheduler(0, policy, &param)` returns 0. -/
  setschedulerOk : Policy → Int → Bool

/-- The value of `adjusted_priority` in `Scheduling::setPriority`:
`int((max_priority - min_priority) * priority) + min_priority`, or `none` when the conversion
to `int` is undefined. -/
def Scheduling.adjustedPriority (min_priority max_priority : Int) (priority : Double) :
    Option Int :=
  match (Double.mul (Double.ofInt (wrapInt32 (max_priority - min_priority))) priority).toInt with
  | some t => some (wrapInt32 (t + min_priority))
  | none => none

/-- The function `Scheduling::setPriority(priority, policy)`. -/
def Scheduling.setPriority (os : SchedulerOs) (priority : Double) (policy : Policy) :
    Outcome Unit Unit :=
  if Double.lt priority (.finite 0) || Double.gt priority (.finite 1) then
    ⟨(), [], .error (.invalidArgument "setPriority: priority out of range")⟩
  else
    match os.mlockallError with
    | some msg =>
      ⟨(), [.mlockall], .error (.runtimeError ("failed to lock memory for realtime: " ++ msg))⟩
    | none =>
      let min_priority := os.priorityMin policy
      let max_priority := os.priorityMax policy
      match Scheduling.adjustedPriority min_priority max_priority priority with
      | none => ⟨(), [.mlockall], .error .undefinedConversion⟩
      | some adjusted_priority =>
        if os.setschedulerOk policy adjusted_priority then
          ⟨(), [.mlockall, .schedSetscheduler policy adjusted_priority], .ok ()⟩
        else
          ⟨(), [.mlockall, .schedSetscheduler policy adjusted_priority],
            .error (.runtimeError "failed to set thread priority.")⟩

/-! ## `class GpioChip` -/

/-- The fields of `struct gpiochip_info` that the library reads. -/
structure ChipInfo where
  name : String
  label : String
  lines : Nat
  deriving DecidableEq, Repr

/-- The fields of `struct gpiohandle_request` that the library writes or reads. -/
structure HandleRequest where
  lineoffsets : List Int
  flags : Nat
  consumer_label : String
  lines : Nat
  fd : Int
  deriving DecidableEq, Repr

/-- The private members of `GpioChip`; `m_data` is `gpiohandle_data::values`. -/
structure GpioChip where
  m_fd : Int
  m_requested_gpio_count : Nat
  m_chip_info : ChipInfo
  m_request : HandleRequest
  m_data : List Nat
  deriving DecidableEq, Repr

/-- What the operating system answers when `/dev/gpiochip<index>` is opened and asked for its
`gpiochip_info`. -/
inductive ChipProbe where
  /-- The call `::open` returns a negative value; the argument is `strerror(errno)`. -/
  | openFails (msg : String)
  /-- The call `::open` returns `fd`, the `GPIO_GET_CHIPINFO_IOCTL` fails. -/
  | infoFails (fd : Nat) (msg : String)
  /-- The call `::open` returns `fd` and the chip reports `info`. -/
  | present (fd : Nat) (info : ChipInfo)
  deriving DecidableEq, Repr

/-- The constant `GPIOHANDLE_REQUEST_OUTPUT` of `<linux/gpio.h>`. -/
def GPIOHANDLE_REQUEST_OUTPUT : Nat := 2

namespace GpioChip

/-- The method `GpioChip::isOpen`. -/
def isOpen (g : GpioChip) : Bool := g.m_fd != -1

/-- The method `GpioChip::close`. -/
def close (g : GpioChip) : Outcome GpioChip Unit :=
  if g.isOpen then ⟨{ g with m_fd := -1 }, [.closeFd g.m_fd], .ok ()⟩
  else ⟨g, [], .ok ()⟩

/-- The method `GpioChip::open` on the path `/dev/gpiochip<index>`, the operating system answering
`probe`. -/
def open' (probe : ChipProbe) (index : Nat) (g : GpioChip) : Outcome GpioChip Bool :=
  let c := g.close
  match probe with
  | .openFails msg =>
    ⟨{ c.state with m_fd := -1 }, c.trace ++ [.openDevice index],
      .error (.runtimeError
        ("failed to open gpio controller /dev/gpiochip" ++ toString index ++ " : " ++ msg))⟩
  | .infoFails fd msg =>
    ⟨{ c.state with m_fd := fd }, c.trace ++ [.openDevice index, .getChipInfo fd],
      .error (.runtimeError ("Failed to get gpiochip info: " ++ msg))⟩
  | .present fd info =>
    ⟨{ c.state with m_fd := fd, m_chip_info := info },
      c.trace ++ [.openDevice index, .getChipInfo fd], .ok true⟩

/-- The method `GpioChip::count`. -/
def count (g : GpioChip) : Nat := if !g.isOpen then 0 else g.m_chip_info.lines

/-- The method `GpioChip::name`. -/
def name (g : GpioChip) : String := g.m_chip_info.name

/-- The method `GpioChip::label`. -/
def label (g : GpioChip) : String := g.m_chip_info.label

/-- The method `GpioChip::requestedOutputs`. -/
def requestedOutputs (g : GpioChip) : Nat := g.m_requested_gpio_count

/-- The copy loop of `GpioChip::requestOutputs`: `lineoffsets[i] = t_offsets.at(i)` for
`i = 0 .. lines - 1`. -/
def copyOffsets (t_offsets : List Int) (lineoffsets : List Int) : List Int :=
  t_offsets ++ lineoffsets.drop t_offsets.length

/-- The method `GpioChip::requestOutputs`; `handle` is the answer to `GPIO_GET_LINEHANDLE_IOCTL`: the file
descriptor stored in `m_request.fd`, or `strerror(errno)`. -/
def requestOutputs (handle : Except String Nat) (t_offsets : List Int) (g : GpioChip) :
    Outcome GpioChip Bool :=
  let req : HandleRequest :=
    { g.m_request with
      lines := t_offsets.length
      lineoffsets := copyOffsets t_offsets g.m_request.lineoffsets
      flags := GPIOHANDLE_REQUEST_OUTPUT
      consumer_label := "siggen" }
  match handle with
  | .error msg =>
    ⟨{ g with m_request := req }, [.getLineHandle g.m_fd t_offsets],
      .error (.runtimeError ("failed to request outputs: (-1) :" ++ msg))⟩
  | .ok fd =>
    ⟨{ g with m_request := { req with fd := fd }, m_requested_gpio_count := t_offsets.length },
      [.getLineHandle g.m_fd t_offsets], .ok true⟩

/-- The `for` loop of `GpioChip::setOutputs` from counter value `i` on:
`for (; i < t_values.size() && i < m_requested_gpio_count; ++i) values[i] = t_values[i] ? 1 : 0`.
The third argument bounds the number of iterations left.  A store past the end of the buffer
(undefined behaviour in C++) leaves the buffer as it is. -/
def setOutputsLoop (t_values : List Bool) (requested : Nat) :
    Nat → Nat → List Nat → List Nat
  | 0, _, data => data
  | fuel + 1, i, data =>
    if i < t_values.length ∧ i < requested then
      setOutputsLoop t_values requested fuel (i + 1)
        (data.set i (if t_values.getD i false then 1 else 0))
    else data

/-- The method `GpioChip::setOutputs`; `writeError` is `none` when `GPIOHANDLE_SET_LINE_VALUES_IOCTL`
succeeds and `strerror(errno)` otherwise. -/
def setOutputs (writeError : Option String) (t_values : List Bool) (g : GpioChip) :
    Outcome GpioChip Unit :=
  if g.m_requested_gpio_count = 0 then ⟨g, [], .ok ()⟩
  else
    let data := setOutputsLoop t_values g.m_requested_gpio_count t_values.length 0 g.m_data
    let g1 := { g with m_data := data }
    match writeError with
    | some msg =>
      ⟨g1, [.setLineValues g.m_request.fd data],
        .error (.runtimeError ("Failed to set output: " ++ msg))⟩
    | none => ⟨g1, [.setLineValues g.m_request.fd data], .ok ()⟩

end GpioChip

/-! ## `class PatternGenerator` -/

/-- The `struct Pattern` of the header. -/
structure Pattern where
  duration : Double
  values : List Bool
  deriving DecidableEq, Repr

/-- The members of `PatternGenerator`.  The constructor that would initialise `m_is_stop` is
commented out in the header, so the flag has no defined value before `open`. -/
structure PatternGenerator where
  gpio : GpioChip
  patterns : List Pattern
  m_gpioControllerName : String
  m_periodDuration : Double
  m_dutyCycle : Double
  m_gpios : List Int
  m_is_stop : Bool
  deriving DecidableEq, Repr

/-- The effect of `std::vector::resize(n)`: it keeps the first `n` elements and pads with value-initialised
elements `d`. -/
def resize {α : Type} (l : List α) (n : Nat) (d : α) : List α :=
  l.take n ++ List.replicate (n - l.length) d

namespace PatternGenerator

/-- The method `PatternGenerator::openGpioByIndex`; `probes index` is the answer of the operating system
for `/dev/gpiochip<index>`. -/
def openGpioByIndex (probes : Nat → ChipProbe) (index : Nat) (p : PatternGenerator) :
    Outcome PatternGenerator Bool :=
  let r := p.gpio.open' (probes index) index
  ⟨{ p with gpio := r.state }, r.trace, r.result⟩

/-- The `for` loop of `PatternGenerator::openGpioByLabel` from counter value `i` on, with
`fuel = 10 - i` iterations left. -/
def openGpioByLabelLoop (probes : Nat → ChipProbe) (name : String) :
    Nat → Nat → PatternGenerator → Outcome PatternGenerator Bool
  | 0, _, p => ⟨p, [], .ok false⟩
  | fuel + 1, i, p =>
    let r := openGpioByIndex probes i p
    match r.result with
    | .error e => ⟨r.state, r.trace, .error e⟩
    | .ok opened =>
      if !opened then ⟨r.state, r.trace, .ok false⟩
      else if r.state.gpio.label = name then ⟨r.state, r.trace, .ok true⟩
      else
        let rest := openGpioByLabelLoop probes name fuel (i + 1) r.state
        ⟨rest.state, r.trace ++ rest.trace, rest.result⟩

/-- The method `PatternGenerator::openGpioByLabel`. -/
def openGpioByLabel (probes : Nat → ChipProbe) (name : String) (p : PatternGenerator) :
    Outcome PatternGenerator Bool :=
  openGpioByLabelLoop probes name 10 0 p

/-- The method `PatternGenerator::openGpioController`. -/
def openGpioController (probes : Nat → ChipProbe) (p : PatternGenerator) :
    Outcome PatternGenerator Unit :=
  if p.m_gpioControllerName ≠ "" then
    let r := openGpioByLabel probes p.m_gpioControllerName p
    match r.result with
    | .error e => ⟨r.state, r.trace, .error e⟩
    | .ok found =>
      if !found then
        ⟨r.state, r.trace,
          .error (.runtimeError ("gpio controller not found: " ++ p.m_gpioControllerName))⟩
      else ⟨r.state, r.trace, .ok ()⟩
  else ⟨p, [], .error (.runtimeError "no valid gpio controller provided")⟩

/-- The method `PatternGenerator::open`. -/
def open' (probes : Nat → ChipProbe) (handle : Except String Nat)
    (t_gpio_pin : Int) (t_period_duration t_duty_cycle : Double) (p : PatternGenerator) :
    Outcome PatternGenerator Bool :=
  let p1 : PatternGenerator :=
    { p with
      m_gpios := p.m_gpios ++ [t_gpio_pin]
      m_periodDuration := t_period_duration
      m_dutyCycle := t_duty_cycle
      m_is_stop := false }
  let c := openGpioController probes p1
  match c.result with
  | .error e => ⟨c.state, c.trace, .error e⟩
  | .ok _ =>
    let r := c.state.gpio.requestOutputs handle c.state.m_gpios
    ⟨{ c.state with gpio := r.state }, c.trace ++ r.trace, r.result⟩

/-- The body of the outer `for` loop of `generateSquareWave` for counter value `i`, applied to
`patterns[i]`; `size` is `patterns.size()`. -/
def squareWaveEntry (p : PatternGenerator) (size i : Nat) (old : Pattern) : Pattern :=
  let periodDuration := p.m_periodDuration
  let duration :=
    if size = 2 then
      if i = 0 then Double.mul periodDuration p.m_dutyCycle
      else Double.mul periodDuration (Double.sub (.finite 1) p.m_dutyCycle)
    else Double.div periodDuration (Double.ofInt size)
  let values := resize old.values p.gpio.requestedOutputs false
  let values :=
    (List.range p.gpio.requestedOutputs).foldl (fun vs j => vs.set j (decide (i = 0))) values
  { duration := duration, values := values }

/-- The method `PatternGenerator::generateSquareWave`. -/
def generateSquareWave (p : PatternGenerator) : PatternGenerator :=
  let patterns := resize p.patterns 2 { duration := .finite 0, values := [] }
  { p with
    patterns :=
      (List.range patterns.length).foldl
        (fun ps i => ps.modify (squareWaveEntry p patterns.length i) i) patterns }

/-- The method `PatternGenerator::appendPattern(double, const std::vector<bool>&)`. -/
def appendPattern (durationSeconds : Double) (values : List Bool) (p : PatternGenerator) :
    PatternGenerator :=
  { p with patterns := p.patterns ++ [{ duration := durationSeconds, values := values }] }

/-- The method `PatternGenerator::appendPattern(double, const unsigned long)`. -/
def appendPatternMask (durationSeconds : Double) (values : Nat) (p : PatternGenerator) :
    PatternGenerator :=
  let v := resize ([] : List Bool) p.gpio.requestedOutputs false
  let v :=
    (List.range p.gpio.requestedOutputs).foldl
      (fun v i => v.set i (decide ((values >>> i) &&& 1 ≠ 0))) v
  p.appendPattern durationSeconds v

/-- The method `PatternGenerator::patternCount`. -/
def patternCount (p : PatternGenerator) : Int := p.patterns.length

/-- The method `PatternGenerator::validPatternIndex`. -/
def validPatternIndex (p : PatternGenerator) (index : Int) : Bool :=
  decide (index < p.patternCount)

/-- The element access `patterns[index]` for an `int` index. -/
def patternAt (p : PatternGenerator) (index : Int) : Result Pattern :=
  if 0 ≤ index then
    match p.patterns.get? index.toNat with
    | some pat => .ok pat
    | none => .error .outOfBounds
  else .error .outOfBounds

/-- The method `PatternGenerator::executePattern`. -/
def executePattern (writeError : Option String) (index : Int) (p : PatternGenerator) :
    Outcome PatternGenerator Unit :=
  if !p.validPatternIndex index then ⟨p, [], .ok ()⟩
  else
    match p.patternAt index with
    | .error e => ⟨p, [], .error e⟩
    | .ok pat =>
      let r := p.gpio.setOutputs writeError pat.values
      ⟨{ p with gpio := r.state }, r.trace, r.result⟩

/-- The method `PatternGenerator::patternDuration`. -/
def patternDuration (p : PatternGenerator) (index : Int) : Result Double :=
  if !p.validPatternIndex index then .ok (.finite 0)
  else
    match p.patternAt index with
    | .error e => .error e
    | .ok pat => .ok pat.duration

/-- The method `PatternGenerator::stopAllPatterns`. -/
def stopAllPatterns (p : PatternGenerator) : PatternGenerator :=
  { p with m_is_stop := true }

end PatternGenerator

/-! ## `PatternGenerator::loopAllPatternsRealtime` as a transition system -/

/-- Where control is inside `loopAllPatternsRealtime`. -/
inductive LoopPc where
  /-- About to evaluate `!m_is_stop` of the `while`. -/
  | whileCheck
  /-- About to evaluate `i < patterns.size()` of the `for`. -/
  | forCheck
  /-- The `while` loop has been left; the function returns. -/
  | exited
  /-- An exception left the function. -/
  | failed (e : Error)
  deriving DecidableEq, Repr

/-- The generator, the locals of `loopAllPatternsRealtime`, the wall clock, and what has been
observed so far.  `executed` counts the calls of `executePattern` made by the loop and `cycles`
the number of times the `while` condition let the loop body start. -/
structure LoopState where
  gen : PatternGenerator
  pc : LoopPc
  i : Nat
  nextPatternStart : Int
  clock : Int
  trace : List OsCall
  executed : Nat
  cycles : Nat
  deriving DecidableEq, Repr

/-- What happens around one step of the loop thread: whether another thread calls
`stopAllPatterns()` right before it, the answer to a hardware write, how many nanoseconds the
step takes before it sleeps, and by how much `sleep_until` wakes late. -/
structure Interference where
  stopRequested : Bool
  writeError : Option String
  busy : Nat
  oversleep : Nat
  deriving DecidableEq, Repr

/-- The operand of `std::chrono::microseconds` in the loop, `long(duration * 1000.0 * 1000.0)`:
the whole microseconds of a duration, or `none` when the conversion to `long` is undefined. -/
def patternMicros (duration : Double) : Option Int :=
  (Double.mul (Double.mul duration (.finite 1000)) (.finite 1000)).toLong

/-- Another thread calling `stopAllPatterns()`, when the interference says so. -/
def requestStop (e : Interference) (s : LoopState) : LoopState :=
  if e.stopRequested then { s with gen := s.gen.stopAllPatterns } else s

/-- One step of the loop thread alone: one evaluation of the `while` condition, or one
evaluation of the `for` condition followed, when it holds, by the loop body and `++i`. -/
def threadStep (e : Interference) (s : LoopState) : LoopState :=
  match s.pc with
  | .whileCheck =>
    if s.gen.m_is_stop then { s with pc := .exited }
    else { s with pc := .forCheck, i := 0, cycles := s.cycles + 1 }
  | .forCheck =>
    if s.i < s.gen.patterns.length then
      let r := s.gen.executePattern e.writeError s.i
      match r.result with
      | .error err =>
        { s with
          gen := r.state, trace := s.trace ++ r.trace, pc := .failed err,
          executed := s.executed + 1, clock := s.clock + e.busy }
      | .ok _ =>
        match r.state.patternDuration s.i with
        | .error err =>
          { s with
            gen := r.state, trace := s.trace ++ r.trace, pc := .failed err,
            executed := s.executed + 1, clock := s.clock + e.busy }
        | .ok d =>
          match patternMicros d with
          | none =>
            { s with
              gen := r.state, trace := s.trace ++ r.trace, pc := .failed .undefinedConversion,
              executed := s.executed + 1, clock := s.clock + e.busy }
          | some k =>
            let next := wrapInt64 (s.nextPatternStart + microseconds k)
            { s with
              gen := r.state, trace := s.trace ++ r.trace ++ [.sleepUntil next],
              nextPatternStart := next, i := s.i + 1, executed := s.executed + 1,
              clock := max (s.clock + e.busy) next + e.oversleep }
    else { s with pc := .whileCheck }
  | .exited => s
  | .failed _ => s

/-- One step of the system: a possible stop request of another thread, then one step of the
loop thread. -/
def loopStep (e : Interference) (s : LoopState) : LoopState :=
  threadStep e (requestStop e s)

/-- The loop thread run for as many steps as the schedule is long. -/
def runLoop (schedule : List Interference) (s : LoopState) : LoopState :=
  schedule.foldl (fun st e => loopStep e st) s

/-- The state in which the `while` loop is entered: `nextPatternStart` is the one reading `now`
of `system_clock::now()`. -/
def loopEntry (gen : PatternGenerator) (now : Int) (trace : List OsCall) : LoopState :=
  { gen := gen, pc := .whileCheck, i := 0, nextPatternStart := now, clock := now,
    trace := trace, executed := 0, cycles := 0 }

/-- The method `PatternGenerator::loopAllPatternsRealtime`, observed after `schedule.length` steps of the
loop. -/
def loopAllPatternsRealtime (os : SchedulerOs) (now : Int) (schedule : List Interference)
    (gen : PatternGenerator) : LoopState :=
  let r := Scheduling.setPriority os (.finite 1) .RoundRobin
  match r.result with
  | .error e => { loopEntry gen now r.trace with pc := .failed e }
  | .ok _ => runLoop schedule (loopEntry gen now r.trace)

/-- The deadlines handed to `sleep_until`, oldest first. -/
def deadlines (trace : List OsCall) : List Int :=
  trace.filterMap fun c =>
    match c with
    | .sleepUntil d => some d
    | _ => none

/-- Whether the integer `x` is a value of a 32-bit signed integer. -/
def fitsInt32 (x : Int) : Bool := decide (wrapInt32 x = x)

/-- A closed chip with a zeroed 64-entry line-value buffer and `lines` requested outputs. -/
def sampleChip (lines : Nat) : GpioChip :=
  { m_fd := -1, m_requested_gpio_count := lines,
    m_chip_info := { name := "", label := "", lines := 0 },
    m_request := { lineoffsets := [], flags := 0, consumer_label := "", lines := 0, fd := 0 },
    m_data := List.replicate 64 0 }

/-- A generator with the default members of the header (period `0.04`, duty cycle `0.25`), no
patterns and `lines` requested outputs. -/
def sampleGenerator (lines : Nat) : PatternGenerator :=
  { gpio := sampleChip lines, patterns := [], m_gpioControllerName := "tegra-gpio",
    m_periodDuration := Double.ofRat (4 / 100), m_dutyCycle := Double.ofRat (25 / 100),
    m_gpios := [], m_is_stop := false }

/-- An operating system that grants the memory lock and the `SCHED_RR` range 1..99. -/
def sampleOs : SchedulerOs :=
  { mlockallError := none, priorityMin := fun _ => 1, priorityMax := fun _ => 99,
    setschedulerOk := fun _ _ => true }

/-- The exact value in seconds of a finite duration, zero for the others. -/
def Double.toRat : Double → ℚ
  | .finite q => q
  | _ => 0

/-- The exact sum in seconds of the durations of all patterns: one full cycle. -/
def cycleSeconds (patterns : List Pattern) : ℚ :=
  (patterns.map (fun pat => pat.duration.toRat)).sum

/-- A generator with one requested output bound to the period `0.1` s and the duty cycle
`0.3`. -/
def tenthGenerator : PatternGenerator :=
  { sampleGenerator 1 with
    m_periodDuration := Double.ofRat (1 / 10), m_dutyCycle := Double.ofRat (3 / 10) }

/-- The chip opens and reports the label `name`. -/
def ChipProbe.hits (name : String) : ChipProbe → Bool
  | .present _ info => decide (info.label = name)
  | _ => false

/-- The chip opens and reports a label other than `name`. -/
def ChipProbe.misses (name : String) : ChipProbe → Bool
  | .present _ info => decide (info.label ≠ name)
  | _ => false

/-- The chip cannot be opened, or cannot be asked for its `gpiochip_info`. -/
def ChipProbe.fails : ChipProbe → Bool
  | .present _ _ => false
  | _ => true

/-- The indices of the chip devices a trace opens, oldest first. -/
def probed (trace : List OsCall) : List Nat :=
  trace.filterMap fun c =>
    match c with
    | .openDevice index => some index
    | _ => none

/-- Chips 0 and 1 carry other labels, chip 2 is the `tegra-gpio` controller, chip 3 cannot be
opened and the remaining ones carry other labels. -/
def sampleProbes (index : Nat) : ChipProbe :=
  if index = 2 then .present 5 { name := "gpiochip2", label := "tegra-gpio", lines := 256 }
  else if index = 3 then .openFails "No such file or directory"
  else .present 4 { name := "gpiochip", label := "max77620-gpio", lines := 8 }

/-! ## The trigger start-up of `main` (`main.cpp`) -/

/-- The macro `FPS` of `main.cpp`. -/
def FPS : Nat := 25

/-- The macro `GPIO_PIN` of `main.cpp`. -/
def GPIO_PIN : Int := 120

/-- The local `period` of `main`: `1.0 / FPS`. -/
def mainPeriod : Double := Double.div (.finite 1) (Double.ofInt FPS)

/-- The local `duty` of `main`: `period / 4.0`. -/
def mainDuty : Double := Double.div mainPeriod (.finite 4)

/-- The block of `main` that starts the hardware trigger, up to the creation of the loop
thread: `open(GPIO_PIN, period, duty)` and, when it returns `true`, `generateSquareWave()`.  The
returned flag tells whether the loop thread is started; an exception, which `main` catches and
logs, is kept in the outcome. -/
def mainStartTrigger (probes : Nat → ChipProbe) (handle : Except String Nat)
    (signal_generator : PatternGenerator) : Outcome PatternGenerator Bool :=
  if GPIO_PIN > 0 then
    let period := mainPeriod
    let duty := mainDuty
    let r := signal_generator.open' probes handle GPIO_PIN period duty
    match r.result with
    | .error e => ⟨r.state, r.trace, .error e⟩
    | .ok opened =>
      if opened then ⟨r.state.generateSquareWave, r.trace, .ok true⟩
      else ⟨r.state, r.trace, .ok false⟩
  else ⟨signal_generator, [], .ok false⟩

/-! ## Theorems -/

theorem log2Floor_bounds : ∀ (fuel n : Nat), 1 ≤ n → n ≤ fuel →
    2 ^ log2Floor fuel n ≤ n ∧ n < 2 ^ (log2Floor fuel n + 1) := by
  intro fuel
  induction fuel with
  | zero => intro n h1 h2; omega
  | succ fuel ih =>
    intro n h1 h2
    unfold log2Floor
    by_cases hn : n < 2
    · rw [if_pos hn]
      constructor <;> simp <;> omega
    · rw [if_neg hn]
      obtain ⟨l, u⟩ := ih (n / 2) (by omega) (by omega)
      constructor
      · rw [pow_succ]; omega
      · rw [pow_succ]; omega

/-- The binade of a positive rational lies at or below it. -/
theorem two_zpow_binade_le {a : ℚ} (ha : 0 < a) : (2 : ℚ) ^ binade a ≤ a := by
  have hnum : 0 < a.num := Rat.num_pos.mpr ha
  have hn1 : 1 ≤ a.num.natAbs := by omega
  have hd1 : 1 ≤ a.den := a.den_pos
  obtain ⟨nl, -⟩ := log2Floor_bounds a.num.natAbs a.num.natAbs hn1 (le_refl _)
  obtain ⟨-, du⟩ := log2Floor_bounds a.den a.den hd1 (le_refl _)
  have hcast : ((a.num.natAbs : Nat) : ℚ) = (a.num : ℚ) := by
    have h1 : ((a.num.natAbs : Nat) : Int) = a.num := Int.natAbs_of_nonneg hnum.le
    have h2 : (((a.num.natAbs : Nat) : Int) : ℚ) = (a.num : ℚ) := by rw [h1]
    rw [← h2, Int.cast_natCast]
  have hmul : a * (a.den : ℚ) = ((a.num.natAbs : Nat) : ℚ) := by
    rw [hcast]; exact Rat.mul_den_eq_num a
  have hdpos : (0 : ℚ) < (a.den : ℚ) := by exact_mod_cast hd1
  unfold binade
  simp only []
  generalize log2Floor a.num.natAbs a.num.natAbs = ln at *
  generalize log2Floor a.den a.den = ld at *
  generalize a.num.natAbs = N at *
  generalize a.den = D at *
  have hld : (0 : ℚ) < (2 : ℚ) ^ ld := by positivity
  split
  · rename_i hc
    rw [zpow_sub₀ (by norm_num : (2 : ℚ) ≠ 0), zpow_natCast, zpow_natCast, div_le_iff₀ hld]
    have hc' : (D : ℚ) * 2 ^ ln ≤ (N : ℚ) * 2 ^ ld := by exact_mod_cast hc
    rw [← hmul] at hc'
    have : (2 : ℚ) ^ ln * D ≤ a * 2 ^ ld * D := by linarith
    exact le_of_mul_le_mul_right this hdpos
  · rw [zpow_sub₀ (by norm_num : (2 : ℚ) ≠ 0), zpow_sub₀ (by norm_num : (2 : ℚ) ≠ 0),
      zpow_natCast, zpow_natCast, zpow_one, div_div, div_le_iff₀ (by positivity)]
    have h1 : ((2 : ℚ) ^ ln) ≤ (N : ℚ) := by exact_mod_cast nl
    have h2 : (D : ℚ) ≤ (2 : ℚ) ^ ld * 2 := by
      have : D ≤ 2 ^ ld * 2 := by rw [pow_succ] at du; omega
      exact_mod_cast this
    calc (2 : ℚ) ^ ln ≤ (N : ℚ) := h1
      _ = a * D := hmul.symm
      _ ≤ a * (2 ^ ld * 2) := mul_le_mul_of_nonneg_left h2 ha.le

theorem roundHalfEven_nonneg {x : ℚ} (hx : 0 ≤ x) : 0 ≤ roundHalfEven x := by
  have hf : 0 ≤ ⌊x⌋ := Int.floor_nonneg.mpr hx
  unfold roundHalfEven
  split
  · exact hf
  · split
    · omega
    · split <;> omega

theorem roundHalfEven_le {x : ℚ} {m : Int} (hx : x ≤ m) : roundHalfEven x ≤ m := by
  have hf : ⌊x⌋ ≤ m := by
    have := Int.floor_mono hx
    rwa [Int.floor_intCast] at this
  by_cases hlt : ⌊x⌋ < m
  · unfold roundHalfEven
    split
    · exact hf
    · split
      · omega
      · split <;> omega
  · have heq : ⌊x⌋ = m := le_antisymm hf (not_lt.mp hlt)
    have hxm : x = m := le_antisymm hx (by rw [← heq]; exact Int.floor_le x)
    unfold roundHalfEven
    rw [hxm, Int.floor_intCast]
    simp

theorem roundHalfEven_intCast (m : Int) : roundHalfEven (m : ℚ) = m := by
  unfold roundHalfEven
  rw [Int.floor_intCast]
  simp

theorem quantum_pos (a : ℚ) : 0 < quantum a := by
  unfold quantum
  exact zpow_pos (by norm_num) _

/-- Below `2 ^ 53` every integer is a multiple of the spacing. -/
theorem quantum_dvd_of_lt {a : ℚ} (ha : 0 < a) (hlt : a < (2 : ℚ) ^ (53 : Int)) (k : Int) :
    ∃ m : Int, (k : ℚ) = (m : ℚ) * quantum a := by
  have hb := two_zpow_binade_le ha
  have hb53 : binade a < 53 := by
    by_contra h
    have h' : (53 : Int) ≤ binade a := not_lt.mp h
    have := zpow_le_zpow_right₀ (by norm_num : (1 : ℚ) ≤ 2) h'
    linarith
  have hexp : max (binade a) (-1022) - 52 ≤ 0 := by
    have : max (binade a) (-1022) ≤ 52 := max_le (by omega) (by norm_num)
    omega
  obtain ⟨j, hj⟩ : ∃ j : Nat, max (binade a) (-1022) - 52 = -(j : Int) :=
    ⟨(-(max (binade a) (-1022) - 52)).toNat, by rw [Int.toNat_of_nonneg (by omega)]; ring⟩
  refine ⟨k * 2 ^ j, ?_⟩
  unfold quantum
  rw [hj, zpow_neg, zpow_natCast]
  push_cast
  field_simp

theorem roundMagnitude_nonneg {a : ℚ} (ha : 0 < a) : 0 ≤ roundMagnitude a := by
  unfold roundMagnitude
  have h1 : 0 ≤ roundHalfEven (a / quantum a) :=
    roundHalfEven_nonneg (div_nonneg ha.le (quantum_pos a).le)
  have h2 : (0 : ℚ) ≤ (roundHalfEven (a / quantum a) : ℚ) := by exact_mod_cast h1
  exact mul_nonneg h2 (quantum_pos a).le

/-- Rounding never crosses an integer below `2 ^ 53`. -/
theorem roundMagnitude_le {a : ℚ} (ha : 0 < a) {k : Int} (hak : a ≤ k)
    (hk : (k : ℚ) < (2 : ℚ) ^ (53 : Int)) : roundMagnitude a ≤ k := by
  obtain ⟨m, hm⟩ := quantum_dvd_of_lt ha (lt_of_le_of_lt hak hk) k
  have hq := quantum_pos a
  unfold roundMagnitude
  have hle : a / quantum a ≤ (m : ℚ) := by
    rw [div_le_iff₀ hq, ← hm]; exact hak
  have := roundHalfEven_le hle
  have h2 : (roundHalfEven (a / quantum a) : ℚ) ≤ (m : ℚ) := by exact_mod_cast this
  rw [hm]
  exact mul_le_mul_of_nonneg_right h2 hq.le

/-- Integers below `2 ^ 53` are binary64 values. -/
theorem roundMagnitude_intCast {k : Int} (hk0 : 0 < k) (hk : (k : ℚ) < (2 : ℚ) ^ (53 : Int)) :
    roundMagnitude (k : ℚ) = k := by
  have hpos : (0 : ℚ) < (k : ℚ) := by exact_mod_cast hk0
  obtain ⟨m, hm⟩ := quantum_dvd_of_lt hpos hk k
  have hq := quantum_pos (k : ℚ)
  unfold roundMagnitude
  have : (k : ℚ) / quantum (k : ℚ) = (m : ℚ) := by
    rw [div_eq_iff hq.ne']; exact hm
  rw [this, roundHalfEven_intCast, ← hm]

theorem two_zpow_53_lt_1024 : (2 : ℚ) ^ (53 : Int) < (2 : ℚ) ^ (1024 : Int) :=
  zpow_lt_zpow_right₀ (by norm_num) (by norm_num)

/-- Rounding a rational between 0 and an integer below `2 ^ 53` gives a finite value in the
same interval. -/
theorem ofRat_bounded {q : ℚ} {k : Int} (hq : 0 ≤ q) (hqk : q ≤ k)
    (hk : (k : ℚ) < (2 : ℚ) ^ (53 : Int)) :
    ∃ v, Double.ofRat q = .finite v ∧ 0 ≤ v ∧ v ≤ k := by
  unfold Double.ofRat
  by_cases h0 : q = 0
  · rw [if_pos h0]
    exact ⟨0, rfl, le_refl _, by rw [← h0]; exact hqk⟩
  · have hpos : 0 < q := lt_of_le_of_ne hq (Ne.symm h0)
    have habs : |q| = q := abs_of_pos hpos
    have h1 := roundMagnitude_nonneg hpos
    have h2 := roundMagnitude_le hpos hqk hk
    have h3 : ¬ (2 : ℚ) ^ (1024 : Int) ≤ roundMagnitude q := by
      have := two_zpow_53_lt_1024
      intro h; linarith
    rw [if_neg h0, habs, if_neg h3, if_neg (not_lt.mpr hq)]
    exact ⟨_, rfl, h1, h2⟩

/-- The conversion of a non-negative integer below `2 ^ 53` to `double` is exact. -/
theorem ofInt_exact {k : Int} (hk0 : 0 ≤ k) (hk : (k : ℚ) < (2 : ℚ) ^ (53 : Int)) :
    Double.ofInt k = .finite k := by
  unfold Double.ofInt Double.ofRat
  by_cases h0 : k = 0
  · subst h0; simp
  · have hkpos : 0 < k := lt_of_le_of_ne hk0 (Ne.symm h0)
    have hpos : (0 : ℚ) < (k : ℚ) := by exact_mod_cast hkpos
    have habs : |(k : ℚ)| = k := abs_of_pos hpos
    have h2 := roundMagnitude_intCast hkpos hk
    have h3 : ¬ (2 : ℚ) ^ (1024 : Int) ≤ roundMagnitude (k : ℚ) := by
      have := two_zpow_53_lt_1024
      rw [h2]; intro h; linarith
    rw [if_neg (by exact_mod_cast h0), habs, if_neg h3, if_neg (not_lt.mpr hpos.le), h2]

theorem tdiv_num_den_of_nonneg {v : ℚ} (hv : 0 ≤ v) : Int.tdiv v.num v.den = ⌊v⌋ := by
  rw [Rat.floor_def, Int.tdiv_eq_ediv (Rat.num_nonneg.mpr hv) (Int.ofNat_nonneg _)]

theorem roundHalfEven_error (x : ℚ) : |(roundHalfEven x : ℚ) - x| ≤ 1 / 2 := by
  have hf1 : (⌊x⌋ : ℚ) ≤ x := Int.floor_le x
  have hf2 : x < (⌊x⌋ : ℚ) + 1 := Int.lt_floor_add_one x
  rw [abs_le]
  unfold roundHalfEven
  split
  · constructor <;> linarith
  · split
    · push_cast; constructor <;> linarith
    · split
      · constructor <;> linarith
      · push_cast; constructor <;> linarith

/-- The spacing of the binary64 values around a positive rational: at most `2 ^ -52` of it,
or the spacing `2 ^ -1074` of the subnormal values. -/
theorem quantum_le {a : ℚ} (ha : 0 < a) :
    quantum a ≤ a * (2 : ℚ) ^ (-52 : Int) + (2 : ℚ) ^ (-1074 : Int) := by
  have hb := two_zpow_binade_le ha
  have h52 : (0 : ℚ) < (2 : ℚ) ^ (-52 : Int) := zpow_pos (by norm_num) _
  have h1074 : (0 : ℚ) < (2 : ℚ) ^ (-1074 : Int) := zpow_pos (by norm_num) _
  unfold quantum
  by_cases hc : -1022 ≤ binade a
  · rw [max_eq_left hc, sub_eq_add_neg, zpow_add₀ (by norm_num : (2 : ℚ) ≠ 0)]
    have := mul_le_mul_of_nonneg_right hb h52.le
    linarith
  · rw [max_eq_right (by omega)]
    have : ((-1022 : Int) - 52) = -1074 := by norm_num
    rw [this]
    have := mul_pos ha h52
    linarith

theorem roundMagnitude_error {a : ℚ} (ha : 0 < a) :
    |roundMagnitude a - a| ≤ a * (2 : ℚ) ^ (-53 : Int) + (2 : ℚ) ^ (-1075 : Int) := by
  have hq := quantum_pos a
  have hle := quantum_le ha
  have herr := roundHalfEven_error (a / quantum a)
  have h1 : roundMagnitude a - a
      = ((roundHalfEven (a / quantum a) : ℚ) - a / quantum a) * quantum a := by
    unfold roundMagnitude
    field_simp
  have e53 : (2 : ℚ) ^ (-53 : Int) = (2 : ℚ) ^ (-52 : Int) / 2 := by
    rw [show (-53 : Int) = -52 - 1 by norm_num, zpow_sub₀ (by norm_num : (2 : ℚ) ≠ 0), zpow_one]
  have e1075 : (2 : ℚ) ^ (-1075 : Int) = (2 : ℚ) ^ (-1074 : Int) / 2 := by
    rw [show (-1075 : Int) = -1074 - 1 by norm_num, zpow_sub₀ (by norm_num : (2 : ℚ) ≠ 0),
      zpow_one]
  rw [h1, abs_mul, abs_of_pos hq, e53, e1075]
  have := mul_le_mul_of_nonneg_right herr hq.le
  generalize (2 : ℚ) ^ (-52 : Int) = z52 at *
  generalize (2 : ℚ) ^ (-1074 : Int) = z1074 at *
  linarith

/-- The rounding error of a non-negative rational that rounds to a finite value. -/
theorem ofRat_error {q v : ℚ} (hq : 0 ≤ q) (h : Double.ofRat q = .finite v) :
    |v - q| ≤ q * (2 : ℚ) ^ (-53 : Int) + (2 : ℚ) ^ (-1075 : Int) := by
  have h1075 : (0 : ℚ) < (2 : ℚ) ^ (-1075 : Int) := zpow_pos (by norm_num) _
  unfold Double.ofRat at h
  by_cases h0 : q = 0
  · rw [if_pos h0] at h
    injection h with h
    rw [← h, h0]
    simp only [sub_self, abs_zero, zero_mul, zero_add]
    exact h1075.le
  · have hpos : 0 < q := lt_of_le_of_ne hq (Ne.symm h0)
    have habs : |q| = q := abs_of_pos hpos
    rw [if_neg h0, habs, if_neg (not_lt.mpr hq), if_neg (not_lt.mpr hq)] at h
    split at h
    · cases h
    · injection h with h
      rw [← h]
      exact roundMagnitude_error hpos

/-- Rounding never crosses `2 ^ 1023`. -/
theorem roundMagnitude_le_two_zpow {a : ℚ} (ha : 0 < a) (hak : a ≤ (2 : ℚ) ^ (1023 : Int)) :
    roundMagnitude a ≤ (2 : ℚ) ^ (1023 : Int) := by
  have hb := two_zpow_binade_le ha
  have hb1 : binade a ≤ 1023 := by
    by_contra h
    have h' : (1024 : Int) ≤ binade a := by omega
    have h1 := zpow_le_zpow_right₀ (by norm_num : (1 : ℚ) ≤ 2) h'
    have h2 : (2 : ℚ) ^ (1023 : Int) < (2 : ℚ) ^ (1024 : Int) :=
      zpow_lt_zpow_right₀ (by norm_num) (by norm_num)
    linarith
  have hexp : max (binade a) (-1022) - 52 ≤ 1023 := by
    have : max (binade a) (-1022) ≤ 1023 := max_le hb1 (by norm_num)
    omega
  obtain ⟨j, hj⟩ : ∃ j : Nat, (1023 : Int) = (j : Int) + (max (binade a) (-1022) - 52) :=
    ⟨(1023 - (max (binade a) (-1022) - 52)).toNat, by rw [Int.toNat_of_nonneg (by omega)]; ring⟩
  have hq := quantum_pos a
  have hm : (2 : ℚ) ^ (1023 : Int) = (((2 : Int) ^ j : Int) : ℚ) * quantum a := by
    unfold quantum
    rw [hj, zpow_add₀ (by norm_num : (2 : ℚ) ≠ 0), zpow_natCast]
    push_cast
    rfl
  have hle : a / quantum a ≤ (((2 : Int) ^ j : Int) : ℚ) := by
    rw [div_le_iff₀ hq, ← hm]; exact hak
  have h2 : (roundHalfEven (a / quantum a) : ℚ) ≤ (((2 : Int) ^ j : Int) : ℚ) := by
    exact_mod_cast roundHalfEven_le hle
  unfold roundMagnitude
  rw [hm]
  exact mul_le_mul_of_nonneg_right h2 hq.le

/-- Rounding a rational between 0 and `2 ^ 1023` gives a finite value in the same interval,
off by at most the relative error `2 ^ -53` and the absolute error `2 ^ -1075`. -/
theorem ofRat_finite {q : ℚ} (hq : 0 ≤ q) (hqk : q ≤ (2 : ℚ) ^ (1023 : Int)) :
    ∃ v, Double.ofRat q = .finite v ∧ 0 ≤ v ∧ v ≤ (2 : ℚ) ^ (1023 : Int)
      ∧ |v - q| ≤ q * (2 : ℚ) ^ (-53 : Int) + (2 : ℚ) ^ (-1075 : Int) := by
  have key : ∃ v, Double.ofRat q = .finite v ∧ 0 ≤ v ∧ v ≤ (2 : ℚ) ^ (1023 : Int) := by
    unfold Double.ofRat
    by_cases h0 : q = 0
    · rw [if_pos h0]
      exact ⟨0, rfl, le_refl _, (zpow_pos (by norm_num) _).le⟩
    · have hpos : 0 < q := lt_of_le_of_ne hq (Ne.symm h0)
      have habs : |q| = q := abs_of_pos hpos
      have h1 := roundMagnitude_nonneg hpos
      have h2 := roundMagnitude_le_two_zpow hpos hqk
      have h3 : ¬ (2 : ℚ) ^ (1024 : Int) ≤ roundMagnitude q := by
        have : (2 : ℚ) ^ (1023 : Int) < (2 : ℚ) ^ (1024 : Int) :=
          zpow_lt_zpow_right₀ (by norm_num) (by norm_num)
        intro h; linarith
      rw [if_neg h0, habs, if_neg h3, if_neg (not_lt.mpr hq)]
      exact ⟨_, rfl, h1, h2⟩
  obtain ⟨v, hv, h1, h2⟩ := key
  exact ⟨v, hv, h1, h2, ofRat_error hq hv⟩

theorem roundHalfEven_ge {x : ℚ} {m : Int} (hx : (m : ℚ) ≤ x) : m ≤ roundHalfEven x := by
  have hf : m ≤ ⌊x⌋ := Int.le_floor.mpr hx
  unfold roundHalfEven
  split
  · exact hf
  · split
    · omega
    · split <;> omega

/-- Rounding never crosses an integer below `2 ^ 53` from above. -/
theorem roundMagnitude_ge {a : ℚ} (ha : 0 < a) (hlt : a < (2 : ℚ) ^ (53 : Int)) {k : Int}
    (hka : (k : ℚ) ≤ a) : (k : ℚ) ≤ roundMagnitude a := by
  obtain ⟨m, hm⟩ := quantum_dvd_of_lt ha hlt k
  have hq := quantum_pos a
  unfold roundMagnitude
  have hle : (m : ℚ) ≤ a / quantum a := by
    rw [le_div_iff₀ hq, ← hm]; exact hka
  have h2 : (m : ℚ) ≤ (roundHalfEven (a / quantum a) : ℚ) := by
    exact_mod_cast roundHalfEven_ge hle
  rw [hm]
  exact mul_le_mul_of_nonneg_right h2 hq.le

/-- Rounding a non-negative rational below `2 ^ 53` keeps it at or above every integer it is
at or above. -/
theorem ofRat_ge {q v : ℚ} {k : Int} (hq : 0 ≤ q) (hlt : q < (2 : ℚ) ^ (53 : Int))
    (hkq : (k : ℚ) ≤ q) (h : Double.ofRat q = .finite v) : (k : ℚ) ≤ v := by
  unfold Double.ofRat at h
  by_cases h0 : q = 0
  · rw [if_pos h0] at h
    injection h with h
    rw [← h, ← h0]; exact hkq
  · have hpos : 0 < q := lt_of_le_of_ne hq (Ne.symm h0)
    have habs : |q| = q := abs_of_pos hpos
    rw [if_neg h0, habs, if_neg (not_lt.mpr hq), if_neg (not_lt.mpr hq)] at h
    split at h
    · cases h
    · injection h with h
      rw [← h]
      exact roundMagnitude_ge hpos hlt hkq

/-- A positive rational lies below the end of its binade. -/
theorem lt_two_zpow_binade_succ {a : ℚ} (ha : 0 < a) : a < (2 : ℚ) ^ (binade a + 1) := by
  have hnum : 0 < a.num := Rat.num_pos.mpr ha
  have hn1 : 1 ≤ a.num.natAbs := by omega
  have hd1 : 1 ≤ a.den := a.den_pos
  obtain ⟨-, nu⟩ := log2Floor_bounds a.num.natAbs a.num.natAbs hn1 (le_refl _)
  obtain ⟨dl, -⟩ := log2Floor_bounds a.den a.den hd1 (le_refl _)
  have hcast : ((a.num.natAbs : Nat) : ℚ) = (a.num : ℚ) := by
    have h1 : ((a.num.natAbs : Nat) : Int) = a.num := Int.natAbs_of_nonneg hnum.le
    have h2 : (((a.num.natAbs : Nat) : Int) : ℚ) = (a.num : ℚ) := by rw [h1]
    rw [← h2, Int.cast_natCast]
  have hmul : a * (a.den : ℚ) = ((a.num.natAbs : Nat) : ℚ) := by
    rw [hcast]; exact Rat.mul_den_eq_num a
  have hdpos : (0 : ℚ) < (a.den : ℚ) := by exact_mod_cast hd1
  unfold binade
  simp only []
  generalize log2Floor a.num.natAbs a.num.natAbs = ln at *
  generalize log2Floor a.den a.den = ld at *
  generalize a.num.natAbs = N at *
  generalize a.den = D at *
  have hld : (0 : ℚ) < (2 : ℚ) ^ ld := by positivity
  split
  · rw [show ((ln : Int) - (ld : Int) + 1) = ((ln + 1 : Nat) : Int) - (ld : Int) by push_cast; ring,
      zpow_sub₀ (by norm_num : (2 : ℚ) ≠ 0), zpow_natCast, zpow_natCast, lt_div_iff₀ hld]
    have h1 : (N : ℚ) < (2 : ℚ) ^ (ln + 1) := by exact_mod_cast nu
    have h2 : (2 : ℚ) ^ ld ≤ (D : ℚ) := by exact_mod_cast dl
    calc a * 2 ^ ld ≤ a * D := mul_le_mul_of_nonneg_left h2 ha.le
      _ = N := hmul
      _ < 2 ^ (ln + 1) := h1
  · rename_i hc
    rw [show ((ln : Int) - (ld : Int) - 1 + 1) = (ln : Int) - (ld : Int) by ring,
      zpow_sub₀ (by norm_num : (2 : ℚ) ≠ 0), zpow_natCast, zpow_natCast, lt_div_iff₀ hld]
    have hc' : (N : ℚ) * 2 ^ ld < (D : ℚ) * 2 ^ ln := by exact_mod_cast not_le.mp hc
    rw [← hmul] at hc'
    have : a * 2 ^ ld * D < 2 ^ ln * D := by linarith
    exact lt_of_mul_lt_mul_right this hdpos.le

/-- The rounded value of a positive rational is a whole multiple of the spacing, with a
multiplier of at most `2 ^ 53`: it has a significand of 53 bits. -/
theorem roundMagnitude_significand {a : ℚ} (ha : 0 < a) :
    roundMagnitude a = (roundHalfEven (a / quantum a) : ℚ) * quantum a
      ∧ 0 ≤ roundHalfEven (a / quantum a)
      ∧ roundHalfEven (a / quantum a) ≤ 2 ^ 53 := by
  have hq := quantum_pos a
  refine ⟨rfl, roundHalfEven_nonneg (div_nonneg ha.le hq.le), ?_⟩
  have hup := lt_two_zpow_binade_succ ha
  have hle : a / quantum a ≤ (((2 : Int) ^ 53 : Int) : ℚ) := by
    rw [div_le_iff₀ hq]
    have hmono : (2 : ℚ) ^ (binade a + 1) ≤ (2 : ℚ) ^ (max (binade a) (-1022) + 1) :=
      zpow_le_zpow_right₀ (by norm_num) (by have := le_max_left (binade a) (-1022); omega)
    have hsplit : (((2 : Int) ^ 53 : Int) : ℚ) * quantum a
        = (2 : ℚ) ^ (max (binade a) (-1022) + 1) := by
      unfold quantum
      rw [show max (binade a) (-1022) + 1 = (53 : Int) + (max (binade a) (-1022) - 52) by ring,
        zpow_add₀ (by norm_num : (2 : ℚ) ≠ 0)]
      norm_num
    rw [hsplit]
    linarith
  exact roundHalfEven_le hle

theorem deadlines_append (a b : List OsCall) : deadlines (a ++ b) = deadlines a ++ deadlines b := by
  simp [deadlines, List.filterMap_append]

theorem GpioChip.deadlines_setOutputs (w : Option String) (v : List Bool) (g : GpioChip) :
    deadlines (GpioChip.setOutputs w v g).trace = [] := by
  unfold GpioChip.setOutputs
  split
  · rfl
  · cases w <;> rfl

theorem GpioChip.setOutputs_result_ok (v : List Bool) (g : GpioChip) :
    (GpioChip.setOutputs none v g).result = .ok () := by
  unfold GpioChip.setOutputs
  split <;> rfl

namespace PatternGenerator

theorem validPatternIndex_natCast (p : PatternGenerator) (i : Nat) :
    p.validPatternIndex (i : Int) = decide (i < p.patterns.length) := by
  simp [validPatternIndex, patternCount]

theorem patternAt_natCast (p : PatternGenerator) (i : Nat) (h : i < p.patterns.length) :
    p.patternAt (i : Int) = .ok (p.patterns.getD i { duration := .finite 0, values := [] }) := by
  simp [patternAt, List.getD, List.get?_eq_get h, List.getElem?_eq_getElem h]

theorem patternDuration_natCast (p : PatternGenerator) (i : Nat) (h : i < p.patterns.length) :
    p.patternDuration (i : Int)
      = .ok (p.patterns.getD i { duration := .finite 0, values := [] }).duration := by
  simp [patternDuration, validPatternIndex_natCast, h, patternAt_natCast]

theorem executePattern_natCast (w : Option String) (p : PatternGenerator) (i : Nat)
    (h : i < p.patterns.length) :
    p.executePattern w (i : Int)
      = ⟨{ p with gpio := (p.gpio.setOutputs w
              (p.patterns.getD i { duration := .finite 0, values := [] }).values).state },
          (p.gpio.setOutputs w (p.patterns.getD i { duration := .finite 0, values := [] }).values).trace,
          (p.gpio.setOutputs w
              (p.patterns.getD i { duration := .finite 0, values := [] }).values).result⟩ := by
  simp [executePattern, validPatternIndex_natCast, h, patternAt_natCast]

end PatternGenerator

theorem requestStop_flag (e : Interference) (s : LoopState) :
    (requestStop e s).gen.m_is_stop = (e.stopRequested || s.gen.m_is_stop) := by
  unfold requestStop; split <;> simp_all [PatternGenerator.stopAllPatterns]

theorem threadStep_whileCheck_stop (e : Interference) (s : LoopState)
    (hpc : s.pc = .whileCheck) (hstop : s.gen.m_is_stop = true) :
    threadStep e s = { s with pc := .exited } := by
  simp [threadStep, hpc, hstop]

theorem threadStep_whileCheck_go (e : Interference) (s : LoopState)
    (hpc : s.pc = .whileCheck) (hstop : s.gen.m_is_stop = false) :
    threadStep e s = { s with pc := .forCheck, i := 0, cycles := s.cycles + 1 } := by
  simp [threadStep, hpc, hstop]

theorem threadStep_forCheck_done (e : Interference) (s : LoopState)
    (hpc : s.pc = .forCheck) (hi : ¬ s.i < s.gen.patterns.length) :
    threadStep e s = { s with pc := .whileCheck } := by
  simp [threadStep, hpc, hi]

theorem threadStep_exited (e : Interference) (s : LoopState) (hpc : s.pc = .exited) :
    threadStep e s = s := by
  simp [threadStep, hpc]

theorem threadStep_failed (e : Interference) (s : LoopState) (err : Error)
    (hpc : s.pc = .failed err) : threadStep e s = s := by
  simp [threadStep, hpc]

/-- The loop body: what one pass through `executePattern(i); nextPatternStart += ...;
sleep_until(nextPatternStart)` changes.  It fails when the hardware write is rejected or the
conversion of the duration to whole microseconds is undefined; otherwise it moves the deadline
by those microseconds and sleeps until it. -/
theorem threadStep_forCheck_body (e : Interference) (s : LoopState)
    (hpc : s.pc = .forCheck) (hi : s.i < s.gen.patterns.length) :
    (threadStep e s).gen.patterns = s.gen.patterns
      ∧ (threadStep e s).gen.m_is_stop = s.gen.m_is_stop
      ∧ (threadStep e s).executed = s.executed + 1
      ∧ (threadStep e s).cycles = s.cycles
      ∧ (((∃ err, (threadStep e s).pc = .failed err)
            ∧ (e.writeError ≠ none
              ∨ patternMicros
                  (s.gen.patterns.getD s.i { duration := .finite 0, values := [] }).duration
                = none)
            ∧ deadlines (threadStep e s).trace = deadlines s.trace
            ∧ (threadStep e s).nextPatternStart = s.nextPatternStart)
          ∨ (∃ k, patternMicros
                  (s.gen.patterns.getD s.i { duration := .finite 0, values := [] }).duration
                = some k
            ∧ (threadStep e s).pc = .forCheck
            ∧ (threadStep e s).i = s.i + 1
            ∧ (threadStep e s).nextPatternStart
                = wrapInt64 (s.nextPatternStart + microseconds k)
            ∧ deadlines (threadStep e s).trace
                = deadlines s.trace ++ [(threadStep e s).nextPatternStart])) := by
  have hd := GpioChip.deadlines_setOutputs e.writeError
    (s.gen.patterns.getD s.i { duration := .finite 0, values := [] }).values s.gen.gpio
  have hok := GpioChip.setOutputs_result_ok
    (s.gen.patterns.getD s.i { duration := .finite 0, values := [] }).values s.gen.gpio
  have hdur : ∀ g : GpioChip, ({ s.gen with gpio := g } : PatternGenerator).patternDuration s.i
      = .ok (s.gen.patterns.getD s.i { duration := .finite 0, values := [] }).duration :=
    fun g => PatternGenerator.patternDuration_natCast { s.gen with gpio := g } s.i hi
  unfold threadStep
  simp only [hpc, hi, if_true, PatternGenerator.executePattern_natCast _ _ _ hi, hdur]
  generalize s.gen.patterns.getD s.i { duration := .finite 0, values := [] } = pat at *
  generalize hr : GpioChip.setOutputs e.writeError pat.values s.gen.gpio = r at *
  cases hres : r.result with
  | error err =>
    have hw : e.writeError ≠ none := by
      intro h; rw [h] at hr; rw [← hr, hok] at hres; cases hres
    simp [deadlines_append, hd, hw]
  | ok u =>
    have hs : ∀ d : Int, deadlines [OsCall.sleepUntil d] = [d] := fun _ => rfl
    cases hk : patternMicros pat.duration with
    | none => simp [deadlines_append, hd]
    | some k => simp [deadlines_append, hd, hs]

theorem threadStep_flag (e : Interference) (s : LoopState) :
    (threadStep e s).gen.m_is_stop = s.gen.m_is_stop
      ∧ (threadStep e s).gen.patterns = s.gen.patterns := by
  cases hpc : s.pc with
  | exited => rw [threadStep_exited e s hpc]; exact ⟨rfl, rfl⟩
  | failed err => rw [threadStep_failed e s err hpc]; exact ⟨rfl, rfl⟩
  | whileCheck =>
    cases hstop : s.gen.m_is_stop with
    | true => rw [threadStep_whileCheck_stop e s hpc hstop]; exact ⟨hstop, rfl⟩
    | false => rw [threadStep_whileCheck_go e s hpc hstop]; exact ⟨hstop, rfl⟩
  | forCheck =>
    by_cases hi : s.i < s.gen.patterns.length
    · obtain ⟨b1, b2, -⟩ := threadStep_forCheck_body e s hpc hi
      exact ⟨b2, b1⟩
    · rw [threadStep_forCheck_done e s hpc hi]; exact ⟨rfl, rfl⟩

theorem length_resize {α : Type} (l : List α) (n : Nat) (d : α) : (resize l n d).length = n := by
  simp [resize]; omega

theorem resize_two {α : Type} (l : List α) (d : α) :
    resize l 2 d = [l.getD 0 d, l.getD 1 d] := by
  match l with
  | [] => rfl
  | [a] => rfl
  | a :: b :: rest => simp [resize]

/-- A counted loop `for (j = 0; j < k; ++j) vs[j] = f(j)` keeps the length of the vector. -/
theorem length_foldl_set_range {α : Type} (f : Nat → α) (k : Nat) (l : List α) :
    ((List.range k).foldl (fun vs j => vs.set j (f j)) l).length = l.length := by
  induction k with
  | zero => simp
  | succ k ih => simp [List.range_succ, List.foldl_append, ih]

/-- A counted loop `for (j = 0; j < k; ++j) vs[j] = f(j)` stores `f j` at every position
`j < k` of the vector and leaves the other positions as they were. -/
theorem getElem?_foldl_set_range {α : Type} (f : Nat → α) (k : Nat) (l : List α) (j : Nat) :
    ((List.range k).foldl (fun vs j => vs.set j (f j)) l)[j]?
      = if j < k then (l[j]?).map (fun _ => f j) else l[j]? := by
  induction k with
  | zero => simp
  | succ k ih =>
    rw [List.range_succ, List.foldl_append, List.foldl_cons, List.foldl_nil, List.getElem?_set]
    by_cases hjk : k = j
    · subst hjk
      simp only [if_true, Nat.lt_succ_self, length_foldl_set_range]
      by_cases hl : k < l.length
      · simp [hl, List.getElem?_eq_getElem hl]
      · simp [hl, List.getElem?_eq_none (Nat.le_of_not_lt hl)]
    · rw [if_neg hjk, ih]
      by_cases hj : j < k
      · rw [if_pos hj, if_pos (by omega)]
      · rw [if_neg hj, if_neg (by omega)]

/-- Filling a vector of length `n` by the counted loop `vs[j] = b` for `j < n`. -/
theorem foldl_set_range_const {α : Type} (b : α) (n : Nat) (l : List α) (h : l.length = n) :
    (List.range n).foldl (fun vs j => vs.set j b) l = List.replicate n b := by
  apply List.ext_getElem?
  intro j
  rw [getElem?_foldl_set_range (fun _ => b) n l j]
  by_cases hj : j < n
  · rw [if_pos hj, List.getElem?_eq_getElem (by omega), List.getElem?_replicate, if_pos hj]
    rfl
  · rw [if_neg hj, List.getElem?_eq_none (by omega), List.getElem?_eq_none (by simp; omega)]

theorem squareWaveEntry_two (p : PatternGenerator) (i : Nat) (old : Pattern) :
    PatternGenerator.squareWaveEntry p 2 i old
      = { duration :=
            if i = 0 then Double.mul p.m_periodDuration p.m_dutyCycle
            else Double.mul p.m_periodDuration (Double.sub (.finite 1) p.m_dutyCycle)
          values := List.replicate p.gpio.requestedOutputs (decide (i = 0)) } := by
  unfold PatternGenerator.squareWaveEntry
  simp only [if_true]
  rw [foldl_set_range_const _ _ _ (length_resize _ _ _)]

/-- The two entries `generateSquareWave` leaves, whatever patterns were present before. -/
theorem generateSquareWave_patterns (p : PatternGenerator) :
    p.generateSquareWave
      = { p with
          patterns :=
            [{ duration := Double.mul p.m_periodDuration p.m_dutyCycle
               values := List.replicate p.gpio.requestedOutputs true },
             { duration :=
                 Double.mul p.m_periodDuration (Double.sub (.finite 1) p.m_dutyCycle)
               values := List.replicate p.gpio.requestedOutputs false }] } := by
  unfold PatternGenerator.generateSquareWave
  simp only [resize_two, List.length_cons, List.length_nil]
  simp [List.range_succ, List.modify, squareWaveEntry_two]

/-- The two durations of a square wave of period `P` at most `2 ^ 1023` and duty cycle `C` in
`[0,1]` are finite and add up to `P` within the rounding of the three operations. -/
theorem squareWave_durations_sum {P C : ℚ} (hP0 : 0 ≤ P) (hP : P ≤ (2 : ℚ) ^ (1023 : Int))
    (hC0 : 0 ≤ C) (hC1 : C ≤ 1) :
    ∃ v0 v1, Double.mul (.finite P) (.finite C) = .finite v0
      ∧ Double.mul (.finite P) (Double.sub (.finite 1) (.finite C)) = .finite v1
      ∧ 0 ≤ v0 ∧ 0 ≤ v1
      ∧ |v0 + v1 - P| ≤ P * (2 : ℚ) ^ (-52 : Int) + (P + 2) * (2 : ℚ) ^ (-1075 : Int) := by
  have hPC0 : 0 ≤ P * C := mul_nonneg hP0 hC0
  have hPC : P * C ≤ (2 : ℚ) ^ (1023 : Int) :=
    le_trans (mul_le_of_le_one_right hP0 hC1) hP
  obtain ⟨v0, hv0, a0, -, e0⟩ := ofRat_finite hPC0 hPC
  have hsub : Double.sub (.finite 1) (.finite C) = Double.ofRat (1 + -C) := rfl
  obtain ⟨w, hw, w0, w1⟩ := ofRat_bounded (q := 1 + -C) (k := 1) (by linarith)
    (by push_cast; linarith) (by norm_num)
  have ew := ofRat_error (by linarith : (0 : ℚ) ≤ 1 + -C) hw
  have w1' : w ≤ 1 := by exact_mod_cast w1
  have hPw0 : 0 ≤ P * w := mul_nonneg hP0 w0
  have hPw : P * w ≤ (2 : ℚ) ^ (1023 : Int) :=
    le_trans (mul_le_of_le_one_right hP0 w1') hP
  obtain ⟨v1, hv1, a1, -, e1⟩ := ofRat_finite hPw0 hPw
  refine ⟨v0, v1, hv0, ?_, a0, a1, ?_⟩
  · rw [hsub, hw]; exact hv1
  · have e52 : (2 : ℚ) ^ (-52 : Int) = (2 : ℚ) ^ (-53 : Int) * 2 := by
      rw [show (-52 : Int) = -53 + 1 by norm_num, zpow_add₀ (by norm_num : (2 : ℚ) ≠ 0),
        zpow_one]
    have h53 : (0 : ℚ) < (2 : ℚ) ^ (-53 : Int) := zpow_pos (by norm_num) _
    have h1075 : (0 : ℚ) < (2 : ℚ) ^ (-1075 : Int) := zpow_pos (by norm_num) _
    rw [e52]
    generalize (2 : ℚ) ^ (-53 : Int) = u at *
    generalize (2 : ℚ) ^ (-1075 : Int) = η at *
    rw [abs_le] at e0 e1 ew ⊢
    have hPw' : P * w ≤ P := mul_le_of_le_one_right hP0 w1'
    have hPu : 0 ≤ P * u := mul_nonneg hP0 h53.le
    have t1 : P * w * u ≤ P * u := mul_le_mul_of_nonneg_right hPw' h53.le
    have t2 : P * (w - (1 + -C)) ≤ P * ((1 + -C) * u + η) :=
      mul_le_mul_of_nonneg_left ew.2 hP0
    have t3 : P * (-((1 + -C) * u + η)) ≤ P * (w - (1 + -C)) :=
      mul_le_mul_of_nonneg_left ew.1 hP0
    have t4 : 0 ≤ P * C * u := mul_nonneg hPC0 h53.le
    constructor <;> nlinarith

/-- C3, with the sum of the two durations up to rounding: whatever patterns were present
before, whatever the bound period, duty cycle and number `n` of requested lines,
`generateSquareWave` changes only the pattern list and leaves it with exactly two entries: the
first lasts the `double` product `period * dutyCycle` with `n` values all `true`, the second
lasts the `double` product `period * (1 - dutyCycle)` with `n` values all `false`. For a
period between 0 and `2 ^ 1023` and a duty cycle in `[0,1]` the two durations are finite and
add up to `period` within `period * 2 ^ -52 + (period + 2) * 2 ^ -1075`; for period 0.04 and
duty cycle 0.25 they are 0.01 and 0.03 and their `double` sum is the period. -/
theorem generateSquareWave_two_entries (p : PatternGenerator) :
    p.generateSquareWave
        = { p with
            patterns :=
              [{ duration := Double.mul p.m_periodDuration p.m_dutyCycle
                 values := List.replicate p.gpio.requestedOutputs true },
               { duration :=
                   Double.mul p.m_periodDuration (Double.sub (.finite 1) p.m_dutyCycle)
                 values := List.replicate p.gpio.requestedOutputs false }] }
      ∧ p.generateSquareWave.patterns.length = 2
      ∧ (∀ (P C : ℚ), p.m_periodDuration = .finite P → p.m_dutyCycle = .finite C →
          0 ≤ P → P ≤ (2 : ℚ) ^ (1023 : Int) → 0 ≤ C → C ≤ 1 →
          ∃ v0 v1, p.generateSquareWave.patterns.map Pattern.duration
                = [.finite v0, .finite v1]
            ∧ 0 ≤ v0 ∧ 0 ≤ v1
            ∧ |v0 + v1 - P|
                ≤ P * (2 : ℚ) ^ (-52 : Int) + (P + 2) * (2 : ℚ) ^ (-1075 : Int))
      ∧ (p.m_periodDuration = Double.ofRat (4 / 100) → p.m_dutyCycle = Double.ofRat (25 / 100) →
          p.generateSquareWave.patterns.map Pattern.duration
              = [Double.ofRat (1 / 100), Double.ofRat (3 / 100)]
            ∧ Double.add (Double.ofRat (1 / 100)) (Double.ofRat (3 / 100))
                = p.m_periodDuration) := by
  have h := generateSquareWave_patterns p
  refine ⟨h, ?_, ?_, ?_⟩
  · rw [h]; rfl
  · intro P C hP hC hP0 hP1 hC0 hC1
    obtain ⟨v0, v1, e0, e1, a0, a1, hb⟩ := squareWave_durations_sum hP0 hP1 hC0 hC1
    refine ⟨v0, v1, ?_, a0, a1, hb⟩
    rw [h, hP, hC]
    simp only [List.map_cons, List.map_nil, e0, e1]
  · intro hP hC
    rw [h, hP, hC]
    simp only [List.map_cons, List.map_nil]
    decide!

/-- C3 at period 0.04 s, duty cycle 0.25 and one requested line, starting from a generator that
already holds three patterns. -/
theorem generateSquareWave_two_entries_witness :
    ((((sampleGenerator 1).appendPattern (.finite 7) [false, true]).appendPattern (.finite 8)
        []).appendPattern (.finite 9) [true]).generateSquareWave.patterns
        = [{ duration := Double.ofRat (1 / 100), values := [true] },
           { duration := Double.ofRat (3 / 100), values := [false] }]
      ∧ ((((sampleGenerator 1).appendPattern (.finite 7) [false, true]).appendPattern (.finite 8)
          []).appendPattern (.finite 9) [true]).generateSquareWave.patterns.map Pattern.duration
        = [Double.ofRat (1 / 100), Double.ofRat (3 / 100)]
      ∧ Double.add (Double.ofRat (1 / 100)) (Double.ofRat (3 / 100)) = Double.ofRat (4 / 100) :=
  ⟨(congrArg PatternGenerator.patterns (generateSquareWave_two_entries
      ((((sampleGenerator 1).appendPattern (.finite 7) [false, true]).appendPattern (.finite 8)
        []).appendPattern (.finite 9) [true])).1).trans (by decide!),
    (generateSquareWave_two_entries
      ((((sampleGenerator 1).appendPattern (.finite 7) [false, true]).appendPattern (.finite 8)
        []).appendPattern (.finite 9) [true])).2.2.2 rfl rfl⟩

/-- C3 as stated fails in its last clause: at period 0.1 and duty cycle 0.3 on one line,
`generateSquareWave` stores the durations 0.03 and 0.06999999999999999 (the `double`
`5044031582654955 / 2 ^ 56`), whose `double` sum 0.09999999999999999 is not the period 0.1; the
exact sum of the two stored values is not the stored period either. -/
theorem squareWave_sum_differs_from_period :
    tenthGenerator.generateSquareWave.patterns
        = [{ duration := Double.ofRat (3 / 100), values := [true] },
           { duration := .finite (5044031582654955 / 72057594037927936), values := [false] }]
      ∧ Double.add (Double.ofRat (3 / 100)) (.finite (5044031582654955 / 72057594037927936))
          = .finite (7205759403792793 / 72057594037927936)
      ∧ tenthGenerator.m_periodDuration = .finite (3602879701896397 / 36028797018963968)
      ∧ Double.add (Double.ofRat (3 / 100)) (.finite (5044031582654955 / 72057594037927936))
          ≠ tenthGenerator.m_periodDuration
      ∧ cycleSeconds tenthGenerator.generateSquareWave.patterns
          ≠ tenthGenerator.m_periodDuration.toRat := by
  decide!

theorem wrapInt32_of_fits {x : Int} (h : fitsInt32 x = true) : wrapInt32 x = x := by
  simpa [fitsInt32] using h

theorem fitsInt32_iff (x : Int) :
    fitsInt32 x = true ↔ -2147483648 ≤ x ∧ x < 2147483648 := by
  simp only [fitsInt32, decide_eq_true_eq]
  unfold wrapInt32
  omega

theorem le_finite_iff {x : Double} :
    (Double.le (.finite 0) x = true ∧ Double.le x (.finite 1) = true)
      ↔ ∃ q, x = .finite q ∧ 0 ≤ q ∧ q ≤ 1 := by
  cases x with
  | finite q => simp [Double.le]
  | posInf => simp [Double.le]
  | negInf => simp [Double.le]
  | nan => simp [Double.le]

/-- The value of `adjusted_priority` for a priority `q` in [0,1] and an `int` range with
`min ≤ max` whose width fits an `int`: the `double` product is finite, its truncation is the
floor of the exact product or one more, and the sum stays within the range. -/
theorem adjustedPriority_of_mem_range (min_priority max_priority : Int) (q : ℚ)
    (h0 : 0 ≤ q) (h1 : q ≤ 1) (hmin : fitsInt32 min_priority = true)
    (hmax : fitsInt32 max_priority = true) (hrange : min_priority ≤ max_priority)
    (hspan : max_priority - min_priority < 2147483648) :
    ∃ v, Double.mul (Double.ofInt (max_priority - min_priority)) (.finite q) = .finite v
      ∧ Scheduling.adjustedPriority min_priority max_priority (.finite q)
          = some (min_priority + ⌊v⌋)
      ∧ ⌊((max_priority - min_priority : Int) : ℚ) * q⌋ ≤ ⌊v⌋
      ∧ ⌊v⌋ ≤ ⌊((max_priority - min_priority : Int) : ℚ) * q⌋ + 1
      ∧ min_priority ≤ min_priority + ⌊v⌋ ∧ min_priority + ⌊v⌋ ≤ max_priority := by
  rw [fitsInt32_iff] at hmin hmax
  have hD0 : 0 ≤ max_priority - min_priority := Int.sub_nonneg.mpr hrange
  have hDq0 : (0 : ℚ) ≤ ((max_priority - min_priority : Int) : ℚ) := by exact_mod_cast hD0
  have hD31 : ((max_priority - min_priority : Int) : ℚ) < 2147483648 := by exact_mod_cast hspan
  have h53 : (2147483649 : ℚ) < (2 : ℚ) ^ (53 : Int) := by norm_num
  have hD53 : ((max_priority - min_priority : Int) : ℚ) < (2 : ℚ) ^ (53 : Int) := by linarith
  have hwrap : wrapInt32 (max_priority - min_priority) = max_priority - min_priority := by
    apply wrapInt32_of_fits; rw [fitsInt32_iff]; omega
  have hofInt := ofInt_exact hD0 hD53
  have hprod0 : 0 ≤ ((max_priority - min_priority : Int) : ℚ) * q := mul_nonneg hDq0 h0
  have hprodD : ((max_priority - min_priority : Int) : ℚ) * q
      ≤ ((max_priority - min_priority : Int) : ℚ) := mul_le_of_le_one_right hDq0 h1
  obtain ⟨v, hv, v0, vD⟩ := ofRat_bounded hprod0 hprodD hD53
  have hmul : Double.mul (Double.ofInt (max_priority - min_priority)) (.finite q)
      = .finite v := by
    rw [hofInt]; exact hv
  have hfl0 : 0 ≤ ⌊v⌋ := Int.floor_nonneg.mpr v0
  have hflD : ⌊v⌋ ≤ max_priority - min_priority := by
    have := Int.floor_mono vD
    rwa [Int.floor_intCast] at this
  have hlow : ⌊((max_priority - min_priority : Int) : ℚ) * q⌋ ≤ ⌊v⌋ := by
    apply Int.le_floor.mpr
    exact ofRat_ge hprod0 (lt_of_le_of_lt hprodD hD53) (Int.floor_le _) hv
  have hhigh : ⌊v⌋ ≤ ⌊((max_priority - min_priority : Int) : ℚ) * q⌋ + 1 := by
    have hfl0' : 0 ≤ ⌊((max_priority - min_priority : Int) : ℚ) * q⌋ :=
      Int.floor_nonneg.mpr hprod0
    have hflD' : ⌊((max_priority - min_priority : Int) : ℚ) * q⌋
        ≤ max_priority - min_priority := by
      have := Int.floor_mono hprodD
      rwa [Int.floor_intCast] at this
    have hup : ((max_priority - min_priority : Int) : ℚ) * q
        ≤ ((⌊((max_priority - min_priority : Int) : ℚ) * q⌋ + 1 : Int) : ℚ) := by
      push_cast
      exact (Int.lt_floor_add_one _).le
    have hk53 : ((⌊((max_priority - min_priority : Int) : ℚ) * q⌋ + 1 : Int) : ℚ)
        < (2 : ℚ) ^ (53 : Int) := by
      have : ((⌊((max_priority - min_priority : Int) : ℚ) * q⌋ + 1 : Int) : ℚ)
          ≤ ((max_priority - min_priority + 1 : Int) : ℚ) := by
        exact_mod_cast Int.add_le_add_right hflD' 1
      push_cast at this hD31 ⊢
      linarith
    obtain ⟨v', hv', -, hv'k⟩ := ofRat_bounded hprod0 hup hk53
    rw [hv] at hv'
    injection hv' with hv'
    rw [← hv'] at hv'k
    have := Int.floor_mono hv'k
    rwa [Int.floor_intCast] at this
  refine ⟨v, hmul, ?_, hlow, hhigh, by omega, by omega⟩
  unfold Scheduling.adjustedPriority
  rw [hwrap, hmul]
  have htd := tdiv_num_den_of_nonneg v0
  have hto : (Double.finite v).toInt = some ⌊v⌋ := by
    simp only [Double.toInt, Double.toSigned, htd]
    rw [if_pos]
    constructor
    · norm_num; omega
    · norm_num; omega
  rw [hto]
  simp only []
  rw [wrapInt32_of_fits (by rw [fitsInt32_iff]; omega), add_comm]

/-- C4, with the product taken in `double`: for a priority in [0,1] and a policy whose `int`
range has `min ≤ max` and a width that fits an `int`, the `double` product
`(max - min) * priority` is a finite value `v`, every scheduler assignment `setPriority`
issues carries the given policy and the absolute priority `min + floor(v)`, a value within
`[min, max]` that is `min + floor((max - min) * priority)` of the exact product or one more;
and the assignment is issued, right after the memory lock, whenever the memory lock is
granted. -/
theorem setPriority_absolute_priority (os : SchedulerOs) (priority : Double) (policy : Policy)
    (h0 : Double.le (.finite 0) priority = true) (h1 : Double.le priority (.finite 1) = true)
    (hmin : fitsInt32 (os.priorityMin policy) = true)
    (hmax : fitsInt32 (os.priorityMax policy) = true)
    (hrange : os.priorityMin policy ≤ os.priorityMax policy)
    (hspan : os.priorityMax policy - os.priorityMin policy < 2147483648) :
    ∃ q v, priority = .finite q
      ∧ Double.mul (Double.ofInt (os.priorityMax policy - os.priorityMin policy)) priority
          = .finite v
      ∧ ⌊((os.priorityMax policy - os.priorityMin policy : Int) : ℚ) * q⌋ ≤ ⌊v⌋
      ∧ ⌊v⌋ ≤ ⌊((os.priorityMax policy - os.priorityMin policy : Int) : ℚ) * q⌋ + 1
      ∧ os.priorityMin policy ≤ os.priorityMin policy + ⌊v⌋
      ∧ os.priorityMin policy + ⌊v⌋ ≤ os.priorityMax policy
      ∧ (∀ pol prio, OsCall.schedSetscheduler pol prio
            ∈ (Scheduling.setPriority os priority policy).trace →
          pol = policy ∧ prio = os.priorityMin policy + ⌊v⌋)
      ∧ (os.mlockallError = none →
          (Scheduling.setPriority os priority policy).trace
            = [.mlockall, .schedSetscheduler policy (os.priorityMin policy + ⌊v⌋)]) := by
  obtain ⟨q, rfl, hq0, hq1⟩ := le_finite_iff.mp ⟨h0, h1⟩
  obtain ⟨v, hmul, hadj, hlow, hhigh, hge, hle⟩ :=
    adjustedPriority_of_mem_range _ _ q hq0 hq1 hmin hmax hrange hspan
  have hguard : (Double.lt (.finite q) (.finite 0) || Double.gt (.finite q) (.finite 1))
      = false := by
    simp [Double.lt, Double.gt, hq0, hq1]
  refine ⟨q, v, rfl, hmul, hlow, hhigh, hge, hle, ?_, ?_⟩
  · intro pol prio hin
    unfold Scheduling.setPriority at hin
    rw [hguard] at hin
    simp only [Bool.false_eq_true, if_false] at hin
    cases hm : os.mlockallError with
    | some msg => rw [hm] at hin; simp at hin
    | none =>
      rw [hm] at hin
      simp only [hadj] at hin
      split at hin <;>
        · simp only [List.mem_cons, List.mem_singleton, OsCall.schedSetscheduler.injEq,
            List.mem_nil_iff, or_false, false_or, reduceCtorEq] at hin
          obtain ⟨-, rfl⟩ := hin
          exact ⟨by cases pol; cases policy; rfl, rfl⟩
  · intro hm
    unfold Scheduling.setPriority
    rw [hguard, hm]
    simp only [Bool.false_eq_true, if_false, hadj]
    split <;> rfl

/-- C4 at priority 1/2 in the `SCHED_RR` range 1..99: the scheduler is asked for priority 50. -/
theorem setPriority_absolute_priority_witness :
    Double.le (.finite 0) (.finite (1 / 2)) = true
      ∧ Double.le (.finite (1 / 2)) (.finite 1) = true
      ∧ fitsInt32 (sampleOs.priorityMin .RoundRobin) = true
      ∧ fitsInt32 (sampleOs.priorityMax .RoundRobin) = true
      ∧ sampleOs.priorityMin .RoundRobin ≤ sampleOs.priorityMax .RoundRobin
      ∧ sampleOs.priorityMax .RoundRobin - sampleOs.priorityMin .RoundRobin < 2147483648
      ∧ (Scheduling.setPriority sampleOs (.finite (1 / 2)) .RoundRobin).trace
          = [.mlockall, .schedSetscheduler .RoundRobin 50]
      ∧ ∃ q v, Double.finite (1 / 2) = .finite q
          ∧ Double.mul
              (Double.ofInt (sampleOs.priorityMax .RoundRobin - sampleOs.priorityMin .RoundRobin))
              (.finite (1 / 2)) = .finite v
          ∧ sampleOs.priorityMin .RoundRobin + ⌊v⌋ ≤ sampleOs.priorityMax .RoundRobin :=
  ⟨by decide!, by decide!, by decide!, by decide!, by decide!, by decide!, by decide!,
    (setPriority_absolute_priority sampleOs (.finite (1 / 2)) .RoundRobin (by decide!)
      (by decide!) (by decide!) (by decide!) (by decide!) (by decide!)).imp
      fun _ hq => hq.imp fun _ hv => ⟨hv.1, hv.2.1, hv.2.2.2.2.2.1⟩⟩

/-- C4 as stated fails: at the priority `3 / 98.0`, a value in [0,1], in the `SCHED_RR` range
1..99, the `double` product `98 * priority` is rounded to 3.0 and the scheduler is asked for
priority 4, while the exact product lies below 3 and `min + floor((max - min) * priority)`
is 3. -/
theorem setPriority_rounds_product_up :
    Double.div (.finite 3) (.finite 98) = .finite (4411689430893547 / 144115188075855872)
      ∧ Double.le (.finite 0) (Double.div (.finite 3) (.finite 98)) = true
      ∧ Double.le (Double.div (.finite 3) (.finite 98)) (.finite 1) = true
      ∧ sampleOs.priorityMin .RoundRobin ≤ sampleOs.priorityMax .RoundRobin
      ∧ Double.mul
          (Double.ofInt (sampleOs.priorityMax .RoundRobin - sampleOs.priorityMin .RoundRobin))
          (Double.div (.finite 3) (.finite 98)) = .finite 3
      ∧ (Scheduling.setPriority sampleOs (Double.div (.finite 3) (.finite 98)) .RoundRobin).trace
          = [.mlockall, .schedSetscheduler .RoundRobin 4]
      ∧ sampleOs.priorityMin .RoundRobin
          + ⌊((sampleOs.priorityMax .RoundRobin - sampleOs.priorityMin .RoundRobin : Int) : ℚ)
              * (4411689430893547 / 144115188075855872)⌋ = 3 := by
  decide!

theorem adjustedPriority_nan (min_priority max_priority : Int) :
    Scheduling.adjustedPriority min_priority max_priority .nan = none := by
  have hmul : ∀ x : Double, Double.mul x .nan = .nan := by
    intro x; cases x <;> rfl
  unfold Scheduling.adjustedPriority
  rw [hmul]
  rfl

/-- For a priority that compares below 0 or above 1, `setPriority` throws
`std::invalid_argument` and issues no system call at all. -/
theorem setPriority_guard_fires (os : SchedulerOs) (priority : Double) (policy : Policy)
    (h : Double.lt priority (.finite 0) = true ∨ Double.gt priority (.finite 1) = true) :
    (Scheduling.setPriority os priority policy).result
        = .error (.invalidArgument "setPriority: priority out of range")
      ∧ (Scheduling.setPriority os priority policy).trace = [] := by
  have hg : (Double.lt priority (.finite 0) || Double.gt priority (.finite 1)) = true := by
    simpa [Bool.or_eq_true] using h
  unfold Scheduling.setPriority
  rw [hg]
  exact ⟨rfl, rfl⟩

/-- Every priority outside [0,1] other than NaN is rejected with `std::invalid_argument`
before any system call. -/
theorem setPriority_rejects_ordered (os : SchedulerOs) (priority : Double) (policy : Policy)
    (hnan : priority ≠ .nan)
    (hout : (Double.le (.finite 0) priority && Double.le priority (.finite 1)) = false) :
    (Scheduling.setPriority os priority policy).result
        = .error (.invalidArgument "setPriority: priority out of range")
      ∧ (Scheduling.setPriority os priority policy).trace = [] := by
  apply setPriority_guard_fires
  cases priority with
  | finite q =>
    simp only [Double.le, Double.lt, Double.gt, Bool.and_eq_false_iff, decide_eq_false_iff_not,
      decide_eq_true_eq, not_le] at hout ⊢
    exact hout
  | posInf => right; rfl
  | negInf => left; rfl
  | nan => exact absurd rfl hnan

/-- C5 fails at NaN, which is not in [0,1]: neither `priority < 0` nor `priority > 1.0` holds
of it, so `setPriority` does not throw `std::invalid_argument`; its trace of system calls is
not empty but starts with `mlockall`, whatever the operating system answers. -/
theorem setPriority_nan_reaches_mlockall (os : SchedulerOs) (policy : Policy) :
    (Double.le (.finite 0) .nan && Double.le .nan (.finite 1)) = false
      ∧ (Double.lt .nan (.finite 0) || Double.gt .nan (.finite 1)) = false
      ∧ (Scheduling.setPriority os .nan policy).trace ≠ []
      ∧ (Scheduling.setPriority os .nan policy).trace.head? = some .mlockall
      ∧ (Scheduling.setPriority os .nan policy).result
          ≠ .error (.invalidArgument "setPriority: priority out of range") := by
  have htrace : (Scheduling.setPriority os .nan policy).trace = [.mlockall] := by
    unfold Scheduling.setPriority
    cases hm : os.mlockallError with
    | some msg => simp [Double.lt, Double.gt]
    | none => simp [Double.lt, Double.gt, adjustedPriority_nan]
  refine ⟨rfl, rfl, ?_, ?_, ?_⟩
  · rw [htrace]; simp
  · rw [htrace]; rfl
  · unfold Scheduling.setPriority
    cases hm : os.mlockallError with
    | some msg => simp [Double.lt, Double.gt]
    | none => simp [Double.lt, Double.gt, adjustedPriority_nan]

theorem length_setOutputsLoop (t_values : List Bool) (requested : Nat) :
    ∀ (fuel i : Nat) (data : List Nat),
      (GpioChip.setOutputsLoop t_values requested fuel i data).length = data.length := by
  intro fuel
  induction fuel with
  | zero => intro i data; rfl
  | succ fuel ih =>
    intro i data
    unfold GpioChip.setOutputsLoop
    split
    · rw [ih, List.length_set]
    · rfl

/-- The `for` loop of `setOutputs`, run from counter value `i` with enough iterations left:
positions `i ≤ j < min(len(values), requested)` of the buffer receive `values[j] ? 1 : 0`, the
others keep their value. -/
theorem getElem?_setOutputsLoop (t_values : List Bool) (requested : Nat) :
    ∀ (fuel i : Nat) (data : List Nat) (j : Nat), min t_values.length requested ≤ i + fuel →
      (GpioChip.setOutputsLoop t_values requested fuel i data)[j]?
        = if i ≤ j ∧ j < t_values.length ∧ j < requested then
            (data[j]?).map (fun _ => if t_values.getD j false then 1 else 0)
          else data[j]? := by
  intro fuel
  induction fuel with
  | zero =>
    intro i data j h
    rw [GpioChip.setOutputsLoop, if_neg]
    omega
  | succ fuel ih =>
    intro i data j h
    unfold GpioChip.setOutputsLoop
    by_cases hc : i < t_values.length ∧ i < requested
    · rw [if_pos hc, ih _ _ _ (by omega), List.getElem?_set]
      by_cases hij : i = j
      · subst hij
        have h1 : ¬ (i + 1 ≤ i ∧ i < t_values.length ∧ i < requested) := by omega
        have h2 : i ≤ i ∧ i < t_values.length ∧ i < requested := ⟨le_refl _, hc⟩
        rw [if_neg h1, if_pos h2, if_pos rfl]
        by_cases hl : i < data.length
        · rw [if_pos hl, List.getElem?_eq_getElem hl]; rfl
        · rw [if_neg hl, List.getElem?_eq_none (Nat.le_of_not_lt hl)]; rfl
      · rw [if_neg hij]
        by_cases hj : i ≤ j ∧ j < t_values.length ∧ j < requested
        · have h1 : i + 1 ≤ j ∧ j < t_values.length ∧ j < requested := ⟨by omega, hj.2⟩
          rw [if_pos hj, if_pos h1]
        · have h1 : ¬ (i + 1 ≤ j ∧ j < t_values.length ∧ j < requested) := by omega
          rw [if_neg hj, if_neg h1]
    · have h1 : ¬ (i ≤ j ∧ j < t_values.length ∧ j < requested) := by omega
      rw [if_neg hc, if_neg h1]

theorem setOutputsLoop_take (t_values : List Bool) (requested : Nat) (data : List Nat) :
    GpioChip.setOutputsLoop (t_values.take requested) requested
        (t_values.take requested).length 0 data
      = GpioChip.setOutputsLoop t_values requested t_values.length 0 data := by
  apply List.ext_getElem?
  intro j
  rw [getElem?_setOutputsLoop _ _ _ _ _ _ (by omega),
    getElem?_setOutputsLoop _ _ _ _ _ _ (by omega)]
  by_cases hj : j < t_values.length ∧ j < requested
  · have e : (t_values.take requested).getD j false = t_values.getD j false := by
      simp [List.getD, List.getElem?_take, hj.2]
    have h1 : 0 ≤ j ∧ j < (t_values.take requested).length ∧ j < requested :=
      ⟨Nat.zero_le _, by rw [List.length_take]; omega, hj.2⟩
    have h2 : 0 ≤ j ∧ j < t_values.length ∧ j < requested := ⟨Nat.zero_le _, hj⟩
    rw [if_pos h1, if_pos h2, e]
  · have h1 : ¬ (0 ≤ j ∧ j < (t_values.take requested).length ∧ j < requested) := by
      rw [List.length_take]; omega
    have h2 : ¬ (0 ≤ j ∧ j < t_values.length ∧ j < requested) := by omega
    rw [if_neg h1, if_neg h2]

/-- C6: `setOutputs(values)` with no requested outputs changes nothing and issues no
system call. With `c > 0` requested outputs it changes only the line-value buffer: every
buffer position `i < min(len(values), c)` holds `1` if `values[i]` and `0` otherwise, every
other position keeps its value; exactly one hardware write is issued, of that buffer; the
only error is the one of a rejected write; and the values from position `c` on play no part:
dropping them gives the same outcome. -/
theorem setOutputs_frame (writeError : Option String) (t_values : List Bool) (g : GpioChip) :
    (g.m_requested_gpio_count = 0 →
        g.setOutputs writeError t_values = ⟨g, [], .ok ()⟩)
      ∧ (0 < g.m_requested_gpio_count →
          (g.setOutputs writeError t_values).state
              = { g with m_data := (g.setOutputs writeError t_values).state.m_data }
            ∧ (g.setOutputs writeError t_values).state.m_data.length = g.m_data.length
            ∧ (∀ i, i < g.m_data.length →
                (g.setOutputs writeError t_values).state.m_data[i]?
                  = if i < min t_values.length g.m_requested_gpio_count then
                      some (if t_values.getD i false then 1 else 0)
                    else g.m_data[i]?)
            ∧ (g.setOutputs writeError t_values).trace
                = [.setLineValues g.m_request.fd
                    (g.setOutputs writeError t_values).state.m_data]
            ∧ (g.setOutputs writeError t_values).result
                = (match writeError with
                  | none => .ok ()
                  | some msg => .error (.runtimeError ("Failed to set output: " ++ msg)))
            ∧ g.setOutputs writeError (t_values.take g.m_requested_gpio_count)
                = g.setOutputs writeError t_values) := by
  constructor
  · intro h
    unfold GpioChip.setOutputs
    rw [if_pos h]
  · intro h
    have hne : ¬ g.m_requested_gpio_count = 0 := by omega
    have hdata : (g.setOutputs writeError t_values).state.m_data
        = GpioChip.setOutputsLoop t_values g.m_requested_gpio_count t_values.length 0
            g.m_data := by
      unfold GpioChip.setOutputs
      rw [if_neg hne]
      cases writeError <;> rfl
    refine ⟨?_, ?_, ?_, ?_, ?_, ?_⟩
    · unfold GpioChip.setOutputs
      rw [if_neg hne]
      cases writeError <;> rfl
    · rw [hdata, length_setOutputsLoop]
    · intro i hi
      rw [hdata, getElem?_setOutputsLoop _ _ _ _ _ _ (by omega)]
      by_cases hc : i < min t_values.length g.m_requested_gpio_count
      · have h1 : 0 ≤ i ∧ i < t_values.length ∧ i < g.m_requested_gpio_count := by omega
        rw [if_pos hc, if_pos h1, List.getElem?_eq_getElem hi]
        rfl
      · have h1 : ¬ (0 ≤ i ∧ i < t_values.length ∧ i < g.m_requested_gpio_count) := by omega
        rw [if_neg hc, if_neg h1]
    · rw [hdata]
      unfold GpioChip.setOutputs
      rw [if_neg hne]
      cases writeError <;> rfl
    · unfold GpioChip.setOutputs
      rw [if_neg hne]
      cases writeError <;> rfl
    · unfold GpioChip.setOutputs
      simp only [if_neg hne, setOutputsLoop_take]

/-- C6 on a chip with two requested outputs whose buffer starts with `[1, 1, 0]`: writing the
one value `[false]` clears position 0, keeps position 1, and issues one write of the buffer. -/
theorem setOutputs_frame_witness :
    0 < ((sampleChip 2).setOutputs none [true, true]).state.m_requested_gpio_count
      ∧ ((((sampleChip 2).setOutputs none [true, true]).state.setOutputs none
            [false]).state.m_data.take 3 = [0, 1, 0])
      ∧ (((sampleChip 2).setOutputs none [true, true]).state.setOutputs none [false]).trace
          = [.setLineValues 0 (0 :: 1 :: List.replicate 62 0)] :=
  ⟨by decide, by decide,
    ((setOutputs_frame none [false] ((sampleChip 2).setOutputs none [true, true]).state).2
      (by decide)).2.2.2.1.trans (by decide)⟩

theorem probed_append (a b : List OsCall) : probed (a ++ b) = probed a ++ probed b := by
  simp [probed, List.filterMap_append]

theorem probed_open (probe : ChipProbe) (index : Nat) (g : GpioChip) :
    probed (g.open' probe index).trace = [index] := by
  have hc : probed g.close.trace = [] := by
    unfold GpioChip.close; split <;> rfl
  unfold GpioChip.open'
  cases probe <;> simp only [probed_append, hc] <;> rfl

theorem open_present (fd : Nat) (info : ChipInfo) (index : Nat) (g : GpioChip) :
    (g.open' (.present fd info) index).result = .ok true
      ∧ (g.open' (.present fd info) index).state.m_fd = fd
      ∧ (g.open' (.present fd info) index).state.m_chip_info = info :=
  ⟨rfl, rfl, rfl⟩

theorem open_fails (probe : ChipProbe) (index : Nat) (h : probe.fails = true) :
    ∃ e, ∀ g : GpioChip, (g.open' probe index).result = .error e := by
  cases probe with
  | openFails msg => exact ⟨_, fun _ => rfl⟩
  | infoFails fd msg => exact ⟨_, fun _ => rfl⟩
  | present fd info => simp [ChipProbe.fails] at h

theorem openGpioByLabelLoop_hit (probes : Nat → ChipProbe) (name : String) (fuel i : Nat)
    (p : PatternGenerator) (h : (probes i).hits name = true) :
    PatternGenerator.openGpioByLabelLoop probes name (fuel + 1) i p
      = ⟨{ p with gpio := (p.gpio.open' (probes i) i).state },
          (p.gpio.open' (probes i) i).trace, .ok true⟩ := by
  cases hp : probes i with
  | openFails msg => rw [hp] at h; simp [ChipProbe.hits] at h
  | infoFails fd msg => rw [hp] at h; simp [ChipProbe.hits] at h
  | present fd info =>
    rw [hp] at h
    have hl : info.label = name := by simpa [ChipProbe.hits] using h
    simp [PatternGenerator.openGpioByLabelLoop, PatternGenerator.openGpioByIndex, hp,
      GpioChip.open', GpioChip.label, hl]

theorem openGpioByLabelLoop_fail (probes : Nat → ChipProbe) (name : String) (fuel i : Nat)
    (p : PatternGenerator) (h : (probes i).fails = true) :
    PatternGenerator.openGpioByLabelLoop probes name (fuel + 1) i p
      = ⟨{ p with gpio := (p.gpio.open' (probes i) i).state },
          (p.gpio.open' (probes i) i).trace, (p.gpio.open' (probes i) i).result⟩ := by
  cases hp : probes i with
  | openFails msg =>
    simp [PatternGenerator.openGpioByLabelLoop, PatternGenerator.openGpioByIndex, hp,
      GpioChip.open']
  | infoFails fd msg =>
    simp [PatternGenerator.openGpioByLabelLoop, PatternGenerator.openGpioByIndex, hp,
      GpioChip.open']
  | present fd info => rw [hp] at h; simp [ChipProbe.fails] at h

theorem openGpioByLabelLoop_miss (probes : Nat → ChipProbe) (name : String) (fuel i : Nat)
    (p : PatternGenerator) (h : (probes i).misses name = true) :
    PatternGenerator.openGpioByLabelLoop probes name (fuel + 1) i p
      = ⟨(PatternGenerator.openGpioByLabelLoop probes name fuel (i + 1)
            { p with gpio := (p.gpio.open' (probes i) i).state }).state,
          (p.gpio.open' (probes i) i).trace
            ++ (PatternGenerator.openGpioByLabelLoop probes name fuel (i + 1)
                { p with gpio := (p.gpio.open' (probes i) i).state }).trace,
          (PatternGenerator.openGpioByLabelLoop probes name fuel (i + 1)
            { p with gpio := (p.gpio.open' (probes i) i).state }).result⟩ := by
  cases hp : probes i with
  | openFails msg => rw [hp] at h; simp [ChipProbe.misses] at h
  | infoFails fd msg => rw [hp] at h; simp [ChipProbe.misses] at h
  | present fd info =>
    rw [hp] at h
    have hl : ¬ info.label = name := by simpa [ChipProbe.misses] using h
    simp [PatternGenerator.openGpioByLabelLoop, PatternGenerator.openGpioByIndex, hp,
      GpioChip.open', GpioChip.label, hl]

theorem openGpioByLabelLoop_scan_hit (probes : Nat → ChipProbe) (name : String) :
    ∀ (n fuel i : Nat) (p : PatternGenerator), n < fuel →
      (∀ j, j < n → (probes (i + j)).misses name = true) →
      (probes (i + n)).hits name = true →
      (PatternGenerator.openGpioByLabelLoop probes name fuel i p).result = .ok true
        ∧ probed (PatternGenerator.openGpioByLabelLoop probes name fuel i p).trace
            = List.range' i (n + 1)
        ∧ ∀ fd info, probes (i + n) = .present fd info →
            (PatternGenerator.openGpioByLabelLoop probes name fuel i p).state.gpio.m_fd = fd
              ∧ (PatternGenerator.openGpioByLabelLoop probes name fuel i p).state.gpio.m_chip_info
                  = info := by
  intro n
  induction n with
  | zero =>
    intro fuel i p hf _ hhit
    obtain ⟨fuel, rfl⟩ := Nat.exists_eq_succ_of_ne_zero (Nat.pos_iff_ne_zero.mp hf)
    rw [openGpioByLabelLoop_hit probes name fuel i p hhit]
    refine ⟨rfl, probed_open _ _ _, ?_⟩
    intro fd info hp
    simp only [Nat.add_zero] at hp
    rw [hp]
    exact ⟨rfl, rfl⟩
  | succ n ih =>
    intro fuel i p hf hmiss hhit
    obtain ⟨fuel, rfl⟩ := Nat.exists_eq_succ_of_ne_zero (by omega : fuel ≠ 0)
    have h0 : (probes i).misses name = true := by simpa using hmiss 0 (Nat.succ_pos n)
    have hshift : ∀ j, j < n → (probes (i + 1 + j)).misses name = true := by
      intro j hj
      have := hmiss (j + 1) (by omega)
      rwa [show i + (j + 1) = i + 1 + j by omega] at this
    have hhit' : (probes (i + 1 + n)).hits name = true := by
      rwa [show i + (n + 1) = i + 1 + n by omega] at hhit
    obtain ⟨r1, r2, r3⟩ := ih fuel (i + 1)
      { p with gpio := (p.gpio.open' (probes i) i).state } (by omega) hshift hhit'
    rw [openGpioByLabelLoop_miss probes name fuel i p h0]
    refine ⟨r1, ?_, ?_⟩
    · simp only [probed_append, probed_open, r2]
      rfl
    · intro fd info hp
      exact r3 fd info (by rwa [show i + 1 + n = i + (n + 1) by omega])

theorem openGpioByLabelLoop_scan_fail (probes : Nat → ChipProbe) (name : String) :
    ∀ (n fuel i : Nat) (p : PatternGenerator), n < fuel →
      (∀ j, j < n → (probes (i + j)).misses name = true) →
      (probes (i + n)).fails = true →
      (∀ g : GpioChip, (PatternGenerator.openGpioByLabelLoop probes name fuel i p).result
          = (g.open' (probes (i + n)) (i + n)).result)
        ∧ probed (PatternGenerator.openGpioByLabelLoop probes name fuel i p).trace
            = List.range' i (n + 1) := by
  intro n
  induction n with
  | zero =>
    intro fuel i p hf _ hfail
    obtain ⟨fuel, rfl⟩ := Nat.exists_eq_succ_of_ne_zero (Nat.pos_iff_ne_zero.mp hf)
    rw [openGpioByLabelLoop_fail probes name fuel i p hfail]
    refine ⟨?_, probed_open _ _ _⟩
    intro g
    obtain ⟨e, he⟩ := open_fails (probes i) i hfail
    simp only [Nat.add_zero, he]
  | succ n ih =>
    intro fuel i p hf hmiss hfail
    obtain ⟨fuel, rfl⟩ := Nat.exists_eq_succ_of_ne_zero (by omega : fuel ≠ 0)
    have h0 : (probes i).misses name = true := by simpa using hmiss 0 (Nat.succ_pos n)
    have hshift : ∀ j, j < n → (probes (i + 1 + j)).misses name = true := by
      intro j hj
      have := hmiss (j + 1) (by omega)
      rwa [show i + (j + 1) = i + 1 + j by omega] at this
    have hfail' : (probes (i + 1 + n)).fails = true := by
      rwa [show i + (n + 1) = i + 1 + n by omega] at hfail
    obtain ⟨r1, r2⟩ := ih fuel (i + 1)
      { p with gpio := (p.gpio.open' (probes i) i).state } (by omega) hshift hfail'
    rw [openGpioByLabelLoop_miss probes name fuel i p h0]
    refine ⟨?_, ?_⟩
    · intro g
      have := r1 g
      rwa [show i + 1 + n = i + (n + 1) by omega] at this
    · simp only [probed_append, probed_open, r2]
      rfl

theorem openGpioByLabelLoop_scan_none (probes : Nat → ChipProbe) (name : String) :
    ∀ (fuel i : Nat) (p : PatternGenerator),
      (∀ j, j < fuel → (probes (i + j)).misses name = true) →
      (PatternGenerator.openGpioByLabelLoop probes name fuel i p).result = .ok false
        ∧ probed (PatternGenerator.openGpioByLabelLoop probes name fuel i p).trace
            = List.range' i fuel := by
  intro fuel
  induction fuel with
  | zero => intro i p _; exact ⟨rfl, rfl⟩
  | succ fuel ih =>
    intro i p hmiss
    have h0 : (probes i).misses name = true := by simpa using hmiss 0 (Nat.succ_pos fuel)
    have hshift : ∀ j, j < fuel → (probes (i + 1 + j)).misses name = true := by
      intro j hj
      have := hmiss (j + 1) (by omega)
      rwa [show i + (j + 1) = i + 1 + j by omega] at this
    obtain ⟨r1, r2⟩ := ih (i + 1) { p with gpio := (p.gpio.open' (probes i) i).state } hshift
    rw [openGpioByLabelLoop_miss probes name fuel i p h0]
    refine ⟨r1, ?_⟩
    simp only [probed_append, probed_open, r2]
    rfl

theorem probed_openGpioByLabelLoop_length (probes : Nat → ChipProbe) (name : String) :
    ∀ (fuel i : Nat) (p : PatternGenerator),
      (probed (PatternGenerator.openGpioByLabelLoop probes name fuel i p).trace).length
        ≤ fuel := by
  intro fuel
  induction fuel with
  | zero => intro i p; exact Nat.le_refl 0
  | succ fuel ih =>
    intro i p
    have hopen := probed_open (probes i) i p.gpio
    unfold PatternGenerator.openGpioByLabelLoop
    simp only [PatternGenerator.openGpioByIndex]
    split
    · simp only [hopen, List.length_singleton]; omega
    · split
      · simp only [hopen, List.length_singleton]; omega
      · split
        · simp only [hopen, List.length_singleton]; omega
        · simp only [probed_append, hopen, List.length_append, List.length_singleton]
          have := ih (i + 1) { p with gpio := (p.gpio.open' (probes i) i).state }
          omega

/-- C7: `openGpioByLabel(name)` is a first-hit scan of the chip indices 0..9 in increasing
order. It opens at most 10 chips. If the chips below `n < 10` all open with another label,
then: when chip `n` reports the label `name`, the call returns `true` having opened exactly
the chips `0..n`, and chip `n` is the one left open; when chip `n` fails to open, the call
throws the error of that open having opened exactly the chips `0..n`. If all ten chips open
with another label, the call returns `false` having opened the chips `0..9`, and
`openGpioController` throws an error naming the requested label. -/
theorem openGpioByLabel_first_hit (probes : Nat → ChipProbe) (name : String)
    (p : PatternGenerator) :
    (probed (p.openGpioByLabel probes name).trace).length ≤ 10
      ∧ (∀ n, n < 10 → (∀ j, j < n → (probes j).misses name = true) →
          (probes n).hits name = true →
            (p.openGpioByLabel probes name).result = .ok true
              ∧ probed (p.openGpioByLabel probes name).trace = List.range (n + 1)
              ∧ (p.openGpioByLabel probes name).state.gpio.isOpen = true
              ∧ (p.openGpioByLabel probes name).state.gpio.label = name
              ∧ ∀ fd info, probes n = .present fd info →
                  (p.openGpioByLabel probes name).state.gpio.m_fd = fd
                    ∧ (p.openGpioByLabel probes name).state.gpio.m_chip_info = info)
      ∧ (∀ n, n < 10 → (∀ j, j < n → (probes j).misses name = true) →
          (probes n).fails = true →
            (∃ e, (p.openGpioByLabel probes name).result = .error e
                ∧ ∀ g : GpioChip, (g.open' (probes n) n).result = .error e)
              ∧ probed (p.openGpioByLabel probes name).trace = List.range (n + 1))
      ∧ ((∀ j, j < 10 → (probes j).misses name = true) →
          (p.openGpioByLabel probes name).result = .ok false
            ∧ probed (p.openGpioByLabel probes name).trace = List.range 10
            ∧ (p.m_gpioControllerName = name → name ≠ "" →
                (p.openGpioController probes).result
                  = .error (.runtimeError ("gpio controller not found: " ++ name)))) := by
  refine ⟨probed_openGpioByLabelLoop_length probes name 10 0 p, ?_, ?_, ?_⟩
  · intro n hn hmiss hhit
    obtain ⟨r1, r2, r3⟩ := openGpioByLabelLoop_scan_hit probes name n 10 0 p hn
      (by simpa using hmiss) (by simpa using hhit)
    have hr2 : probed (p.openGpioByLabel probes name).trace = List.range (n + 1) := by
      rw [List.range_eq_range']; exact r2
    cases hp : probes n with
    | openFails msg => rw [hp] at hhit; simp [ChipProbe.hits] at hhit
    | infoFails fd msg => rw [hp] at hhit; simp [ChipProbe.hits] at hhit
    | present fd info =>
      obtain ⟨s1, s2⟩ := r3 fd info (by simpa using hp)
      have hl : info.label = name := by
        rw [hp] at hhit; simpa [ChipProbe.hits] using hhit
      refine ⟨r1, hr2, ?_, ?_, ?_⟩
      · show ((p.openGpioByLabel probes name).state.gpio.m_fd != -1) = true
        unfold PatternGenerator.openGpioByLabel
        rw [s1]
        simp
      · show (p.openGpioByLabel probes name).state.gpio.m_chip_info.label = name
        unfold PatternGenerator.openGpioByLabel
        rw [s2, hl]
      · intro fd' info' h'
        cases h'
        exact ⟨s1, s2⟩
  · intro n hn hmiss hfail
    obtain ⟨r1, r2⟩ := openGpioByLabelLoop_scan_fail probes name n 10 0 p hn
      (by simpa using hmiss) (by simpa using hfail)
    obtain ⟨e, he⟩ := open_fails (probes n) n hfail
    refine ⟨⟨e, ?_, he⟩, ?_⟩
    · have := r1 p.gpio
      simp only [Nat.zero_add] at this
      rw [he] at this
      exact this
    · rw [List.range_eq_range']; exact r2
  · intro hmiss
    obtain ⟨r1, r2⟩ := openGpioByLabelLoop_scan_none probes name 10 0 p (by simpa using hmiss)
    have hr1 : (p.openGpioByLabel probes name).result = .ok false := r1
    refine ⟨hr1, by rw [List.range_eq_range']; exact r2, ?_⟩
    intro hname hne
    unfold PatternGenerator.openGpioController
    rw [if_pos (by rw [hname]; exact hne), hname]
    simp only [hr1]
    rfl

/-- C7 on a board whose chips 0 and 1 carry other labels and whose chip 2 is `tegra-gpio`:
discovery opens the chips 0, 1 and 2 and returns `true`; chip 3, which would not open, is never
reached. -/
theorem openGpioByLabel_first_hit_witness :
    (2 < 10) ∧ (∀ j, j < 2 → (sampleProbes j).misses "tegra-gpio" = true)
      ∧ (sampleProbes 2).hits "tegra-gpio" = true
      ∧ ((sampleGenerator 0).openGpioByLabel sampleProbes "tegra-gpio").result = .ok true
      ∧ probed ((sampleGenerator 0).openGpioByLabel sampleProbes "tegra-gpio").trace
          = [0, 1, 2] :=
  ⟨by decide, by decide, by decide,
    ((openGpioByLabel_first_hit sampleProbes "tegra-gpio" (sampleGenerator 0)).2.1 2
      (by decide) (by decide) (by decide)).1,
    ((openGpioByLabel_first_hit sampleProbes "tegra-gpio" (sampleGenerator 0)).2.1 2
      (by decide) (by decide) (by decide)).2.1.trans (by decide)⟩

theorem maskBit_eq (values i : Nat) :
    decide ((values >>> i) &&& 1 ≠ 0) = decide (values / 2 ^ i % 2 = 1) := by
  rw [Nat.shiftRight_eq_div_pow, Nat.and_one_is_mod]
  congr 1
  apply propext
  omega

/-- The values `appendPattern(double, unsigned long)` builds from the mask, one per requested
line. -/
theorem maskValues_eq (values n : Nat) :
    (List.range n).foldl (fun v i => v.set i (decide ((values >>> i) &&& 1 ≠ 0)))
        (resize ([] : List Bool) n false)
      = (List.range n).map (fun i => decide (values / 2 ^ i % 2 = 1)) := by
  apply List.ext_getElem?
  intro j
  rw [getElem?_foldl_set_range (fun i => decide ((values >>> i) &&& 1 ≠ 0)) n _ j]
  by_cases hj : j < n
  · rw [if_pos hj, List.getElem?_eq_getElem (by rw [length_resize]; exact hj),
      List.getElem?_map, List.getElem?_range hj, maskBit_eq]
    rfl
  · rw [if_neg hj, List.getElem?_eq_none (by rw [length_resize]; omega),
      List.getElem?_eq_none (by simp; omega)]

/-- C8: for a 64-bit unsigned mask and `n ≤ 64` requested lines, `appendPattern(duration,
bitmask)` changes only the pattern list, by appending exactly one entry at its end and leaving
the earlier entries as they were; the new entry has the given duration and exactly `n` values,
value `i` being `true` exactly when bit `i` of the mask is 1. -/
theorem appendPattern_bitmask (durationSeconds : Double) (bitmask : Nat) (p : PatternGenerator)
    (hn : p.gpio.requestedOutputs ≤ 64) (hb : bitmask < 2 ^ 64) :
    p.appendPatternMask durationSeconds bitmask
        = { p with
            patterns := p.patterns
              ++ [{ duration := durationSeconds
                    values := (List.range p.gpio.requestedOutputs).map
                      (fun i => decide (bitmask / 2 ^ i % 2 = 1)) }] }
      ∧ (p.appendPatternMask durationSeconds bitmask).patterns.length = p.patterns.length + 1
      ∧ (∀ k, k < p.patterns.length →
          (p.appendPatternMask durationSeconds bitmask).patterns[k]? = p.patterns[k]?)
      ∧ ∃ e, (p.appendPatternMask durationSeconds bitmask).patterns[p.patterns.length]? = some e
          ∧ e.duration = durationSeconds
          ∧ e.values.length = p.gpio.requestedOutputs
          ∧ ∀ i, i < p.gpio.requestedOutputs →
              e.values[i]? = some (decide (bitmask / 2 ^ i % 2 = 1))
                ∧ e.values[i]? = some (bitmask.testBit i) := by
  have _ := hn
  have _ := hb
  have h : p.appendPatternMask durationSeconds bitmask
      = { p with
          patterns := p.patterns
            ++ [{ duration := durationSeconds
                  values := (List.range p.gpio.requestedOutputs).map
                    (fun i => decide (bitmask / 2 ^ i % 2 = 1)) }] } := by
    unfold PatternGenerator.appendPatternMask PatternGenerator.appendPattern
    simp only [maskValues_eq]
  refine ⟨h, ?_, ?_, ?_⟩
  · rw [h]; simp
  · intro k hk
    rw [h]
    exact List.getElem?_append_left hk
  · refine ⟨⟨durationSeconds, (List.range p.gpio.requestedOutputs).map
        (fun i => decide (bitmask / 2 ^ i % 2 = 1))⟩, ?_, rfl, ?_, ?_⟩
    · rw [h]
      simp only []
      rw [List.getElem?_append_right (le_refl _), Nat.sub_self]
      rfl
    · simp
    · intro i hi
      have : ((List.range p.gpio.requestedOutputs).map
          (fun i => decide (bitmask / 2 ^ i % 2 = 1)))[i]?
            = some (decide (bitmask / 2 ^ i % 2 = 1)) := by
        rw [List.getElem?_map, List.getElem?_range hi]; rfl
      exact ⟨this, by rw [this, Nat.testBit_to_div_mod]⟩

/-- C8 at the mask `0b101` on three requested lines: the values are `[true, false, true]`. -/
theorem appendPattern_bitmask_witness :
    (sampleGenerator 3).gpio.requestedOutputs ≤ 64 ∧ 0b101 < 2 ^ 64
      ∧ ((sampleGenerator 3).appendPatternMask (Double.ofRat (1 / 50)) 0b101).patterns
          = [{ duration := Double.ofRat (1 / 50), values := [true, false, true] }] :=
  ⟨by decide, by decide,
    (congrArg PatternGenerator.patterns (appendPattern_bitmask (Double.ofRat (1 / 50)) 0b101
      (sampleGenerator 3) (by decide) (by decide)).1).trans (by decide!)⟩

/-- An index at or above `patternCount()` is rejected by `validPatternIndex`; then
`patternDuration` returns 0 and `executePattern` returns without touching the hardware. -/
theorem index_above_count_is_noop (p : PatternGenerator) (writeError : Option String)
    (index : Int) (h : p.patternCount ≤ index) :
    p.validPatternIndex index = false
      ∧ p.patternDuration index = .ok (.finite 0)
      ∧ p.executePattern writeError index = ⟨p, [], .ok ()⟩ := by
  have hv : p.validPatternIndex index = false := by
    unfold PatternGenerator.validPatternIndex
    exact decide_eq_false (not_lt.mpr h)
  refine ⟨hv, ?_, ?_⟩
  · unfold PatternGenerator.patternDuration; rw [hv]; rfl
  · unfold PatternGenerator.executePattern; rw [hv]; rfl

/-- C9 at index -1 on the default square wave: `validPatternIndex(-1)` is `true`, so
`patternDuration(-1)` and `executePattern(-1)` go on to read `patterns[-1]`, outside the
vector, instead of returning 0 and doing nothing. -/
theorem negative_index_passes_validPatternIndex :
    (sampleGenerator 1).generateSquareWave.validPatternIndex (-1) = true
      ∧ (sampleGenerator 1).generateSquareWave.patternDuration (-1) = .error .outOfBounds
      ∧ ((sampleGenerator 1).generateSquareWave.executePattern none (-1)).result
          = .error .outOfBounds := by
  decide!

theorem openGpioByLabelLoop_flag (probes : Nat → ChipProbe) (name : String) :
    ∀ (fuel i : Nat) (p : PatternGenerator),
      (PatternGenerator.openGpioByLabelLoop probes name fuel i p).state.m_is_stop
        = p.m_is_stop := by
  intro fuel
  induction fuel with
  | zero => intro i p; rfl
  | succ fuel ih =>
    intro i p
    unfold PatternGenerator.openGpioByLabelLoop
    simp only [PatternGenerator.openGpioByIndex]
    split
    · rfl
    · split
      · rfl
      · split
        · rfl
        · exact ih (i + 1) _

theorem openGpioController_flag (probes : Nat → ChipProbe) (p : PatternGenerator) :
    (p.openGpioController probes).state.m_is_stop = p.m_is_stop := by
  have h := openGpioByLabelLoop_flag probes p.m_gpioControllerName 10 0 p
  unfold PatternGenerator.openGpioController
  split
  · simp only [PatternGenerator.openGpioByLabel]
    split
    · exact h
    · split <;> exact h
  · rfl

/-- The method `open` assigns `m_is_stop = false` before anything else and nothing it calls touches the
flag. -/
theorem open_clears_flag (probes : Nat → ChipProbe) (handle : Except String Nat)
    (t_gpio_pin : Int) (t_period_duration t_duty_cycle : Double) (p : PatternGenerator) :
    (p.open' probes handle t_gpio_pin t_period_duration t_duty_cycle).state.m_is_stop
      = false := by
  have h := openGpioController_flag probes
    { p with
      m_gpios := p.m_gpios ++ [t_gpio_pin]
      m_periodDuration := t_period_duration
      m_dutyCycle := t_duty_cycle
      m_is_stop := false }
  unfold PatternGenerator.open'
  simp only []
  split
  · exact h
  · exact h

theorem runLoop_flag (schedule : List Interference) :
    ∀ (s : LoopState), s.gen.m_is_stop = true → (runLoop schedule s).gen.m_is_stop = true := by
  induction schedule with
  | nil => intro s h; exact h
  | cons e rest ih =>
    intro s h
    have h1 : (requestStop e s).gen.m_is_stop = true := by
      rw [requestStop_flag, h, Bool.or_true]
    have h2 : (loopStep e s).gen.m_is_stop = true := by
      unfold loopStep
      rw [(threadStep_flag e (requestStop e s)).1, h1]
    exact ih _ h2

/-- C10, without `open`: once `stopAllPatterns()` has set the flag, it is still set after
`generateSquareWave`, either `appendPattern`, `executePattern`, `stopAllPatterns` and any
number of steps of `loopAllPatternsRealtime` (`patternDuration` is `const`); `open`, however,
clears the flag, whether it then succeeds or throws. -/
theorem stop_flag_persists_except_open (p : PatternGenerator) (h : p.m_is_stop = true) :
    p.generateSquareWave.m_is_stop = true
      ∧ (∀ d values, (p.appendPattern d values).m_is_stop = true)
      ∧ (∀ d mask, (p.appendPatternMask d mask).m_is_stop = true)
      ∧ (∀ writeError index, (p.executePattern writeError index).state.m_is_stop = true)
      ∧ p.stopAllPatterns.m_is_stop = true
      ∧ (∀ os now schedule, (loopAllPatternsRealtime os now schedule p).gen.m_is_stop = true)
      ∧ (∀ probes handle pin period duty,
          (p.open' probes handle pin period duty).state.m_is_stop = false) := by
  refine ⟨h, fun _ _ => h, fun _ _ => h, ?_, rfl, ?_, ?_⟩
  · intro writeError index
    unfold PatternGenerator.executePattern
    split
    · exact h
    · split <;> exact h
  · intro os now schedule
    unfold loopAllPatternsRealtime
    simp only []
    split
    · exact h
    · exact runLoop_flag schedule _ h
  · intro probes handle pin period duty
    exact open_clears_flag probes handle pin period duty p

/-- C10 on a generator stopped after its square wave was built: appending a pattern keeps the
flag set. -/
theorem stop_flag_persists_except_open_witness :
    (sampleGenerator 1).generateSquareWave.stopAllPatterns.m_is_stop = true
      ∧ ((sampleGenerator 1).generateSquareWave.stopAllPatterns.appendPatternMask
          (Double.ofRat (1 / 50)) 0b1).m_is_stop = true :=
  ⟨rfl, (stop_flag_persists_except_open (sampleGenerator 1).generateSquareWave.stopAllPatterns
    rfl).2.2.1 (Double.ofRat (1 / 50)) 0b1⟩

/-- C10 as stated fails at `open`: a generator on which `stopAllPatterns()` was called has the
flag cleared by a following `open`. -/
theorem open_resets_stop_flag :
    (sampleGenerator 0).stopAllPatterns.m_is_stop = true
      ∧ ((sampleGenerator 0).stopAllPatterns.open' sampleProbes (.ok 9) 120
          (Double.ofRat (1 / 25)) (Double.ofRat (1 / 100))).state.m_is_stop = false := by
  decide!

theorem openGpioByLabelLoop_config (probes : Nat → ChipProbe) (name : String) :
    ∀ (fuel i : Nat) (p : PatternGenerator),
      (PatternGenerator.openGpioByLabelLoop probes name fuel i p).state.m_periodDuration
          = p.m_periodDuration
        ∧ (PatternGenerator.openGpioByLabelLoop probes name fuel i p).state.m_dutyCycle
          = p.m_dutyCycle := by
  intro fuel
  induction fuel with
  | zero => intro i p; exact ⟨rfl, rfl⟩
  | succ fuel ih =>
    intro i p
    unfold PatternGenerator.openGpioByLabelLoop
    simp only [PatternGenerator.openGpioByIndex]
    split
    · exact ⟨rfl, rfl⟩
    · split
      · exact ⟨rfl, rfl⟩
      · split
        · exact ⟨rfl, rfl⟩
        · exact ih (i + 1) _

theorem openGpioController_config (probes : Nat → ChipProbe) (p : PatternGenerator) :
    (p.openGpioController probes).state.m_periodDuration = p.m_periodDuration
      ∧ (p.openGpioController probes).state.m_dutyCycle = p.m_dutyCycle := by
  have h := openGpioByLabelLoop_config probes p.m_gpioControllerName 10 0 p
  unfold PatternGenerator.openGpioController
  split
  · simp only [PatternGenerator.openGpioByLabel]
    split
    · exact h
    · split <;> exact h
  · exact ⟨rfl, rfl⟩

/-- The method `open` binds the period and the duty cycle it is given, whether it then
succeeds or throws. -/
theorem open_binds_config (probes : Nat → ChipProbe) (handle : Except String Nat)
    (t_gpio_pin : Int) (t_period_duration t_duty_cycle : Double) (p : PatternGenerator) :
    (p.open' probes handle t_gpio_pin t_period_duration t_duty_cycle).state.m_periodDuration
        = t_period_duration
      ∧ (p.open' probes handle t_gpio_pin t_period_duration t_duty_cycle).state.m_dutyCycle
        = t_duty_cycle := by
  have h := openGpioController_config probes
    { p with
      m_gpios := p.m_gpios ++ [t_gpio_pin]
      m_periodDuration := t_period_duration
      m_dutyCycle := t_duty_cycle
      m_is_stop := false }
  unfold PatternGenerator.open'
  simp only []
  split
  · exact h
  · exact h

/-- Whatever the operating system answers and whatever generator `main` starts from: when the
trigger is started, the high phase lasts `period * (period / 4)`, that is 0.0004 s (the
`double` nearest to 1/2500), and the low phase 0.0396 s (the `double` nearest to 99/2500). -/
theorem mainStartTrigger_durations (probes : Nat → ChipProbe) (handle : Except String Nat)
    (p : PatternGenerator) (h : (mainStartTrigger probes handle p).result = .ok true) :
    (mainStartTrigger probes handle p).state.patterns.map Pattern.duration
      = [Double.ofRat (1 / 2500), Double.ofRat (99 / 2500)] := by
  obtain ⟨h1, h2⟩ := open_binds_config probes handle GPIO_PIN mainPeriod mainDuty p
  unfold mainStartTrigger at h ⊢
  rw [if_pos (by decide)] at h ⊢
  simp only [] at h ⊢
  cases hres : (p.open' probes handle GPIO_PIN mainPeriod mainDuty).result with
  | error e => rw [hres] at h; cases h
  | ok opened =>
    rw [hres] at h
    simp only [] at h ⊢
    cases opened with
    | false => simp at h
    | true =>
      simp only [if_true, generateSquareWave_patterns, h1, h2, List.map_cons, List.map_nil]
      decide!

/-- C11 on a board whose chip 2 is the `tegra-gpio` controller, from a fresh generator: `main`
passes `period = 0.04` and `duty = period / 4 = 0.01`; `open` binds that value as the duty
cycle, so `generateSquareWave` makes the high phase `period * duty = 0.0004 s` (1/100 of the
period) and the low phase `0.0396 s`, not `period / 4 = 0.01 s` and `3 * period / 4`. -/
theorem main_square_wave_is_high_for_a_hundredth :
    mainPeriod = Double.ofRat (1 / 25) ∧ mainDuty = Double.ofRat (1 / 100)
      ∧ (mainStartTrigger sampleProbes (.ok 9) (sampleGenerator 0)).result = .ok true
      ∧ (mainStartTrigger sampleProbes (.ok 9) (sampleGenerator 0)).state.m_dutyCycle
          = Double.ofRat (1 / 100)
      ∧ (mainStartTrigger sampleProbes (.ok 9) (sampleGenerator 0)).state.patterns
          = [{ duration := Double.ofRat (1 / 2500), values := [true] },
             { duration := Double.ofRat (99 / 2500), values := [false] }]
      ∧ (mainStartTrigger sampleProbes (.ok 9) (sampleGenerator 0)).state.patterns
          ≠ [{ duration := Double.div mainPeriod (.finite 4), values := [true] },
             { duration := Double.div (Double.mul (.finite 3) mainPeriod) (.finite 4),
               values := [false] }] := by
  decide!

end PylonMultiCam
